import Mathlib

/-!
# Verification of the love-machine generative-art print core

Shallow embedding of `src/print_random_art.py` (and, where the developed
print script is absent from the sources, definitions modelled from the
specification, marked as such).  Images are embedded as lists of pixel
rows: 8-bit grayscale rasters as `List (List ℕ)` (each pixel `0..255`),
1-bit rasters as `List (List Bool)` where `true` is a black pixel
(PIL mode "1" value `0`) and `false` is white (value `255`).

Python float arithmetic is embedded as exact rational arithmetic (`ℚ`);
the float `**` power in the gamma lookup table is embedded as `Real.rpow`.
`int(x)` on a non-negative value is `Int.toNat ⌊x⌋`.
-/

/-- 8-bit grayscale raster: rows of pixels, each pixel in `0..255`. -/
abbrev GrayImg := List (List ℕ)

/-- 1-bit raster: rows of pixels, `true` = black (mode-"1" value 0),
`false` = white (value 255). -/
abbrev BitImg := List (List Bool)

/-- Height of a grayscale raster (number of rows). -/
def grayHeight (img : GrayImg) : ℕ := img.length

/-- Width of a grayscale raster (length of the first row; 0 if empty). -/
def grayWidth (img : GrayImg) : ℕ := (img.headD []).length

/-- Height of a 1-bit raster. -/
def bitHeight (img : BitImg) : ℕ := img.length

/-- Width of a 1-bit raster. -/
def bitWidth (img : BitImg) : ℕ := (img.headD []).length

/-- `img_1.convert("L")`: a mode-"1" pixel becomes gray 0 (black) or 255
(white). -/
def bitToGray (img : BitImg) : GrayImg :=
  img.map (fun row => row.map (fun b => if b then 0 else 255))

/-- Sum of all pixel values of a grayscale raster. -/
def graySum (img : GrayImg) : ℕ := (img.map (fun row => row.sum)).sum

/-- Number of pixels of a grayscale raster. -/
def grayCount (img : GrayImg) : ℕ := (img.map (fun row => row.length)).sum

/-- `ImageStat.Stat(img).mean[0]`: arithmetic mean of the pixel values
(exact rational; 0 for an empty raster). -/
def grayMean (img : GrayImg) : ℚ :=
  if grayCount img = 0 then 0 else (graySum img : ℚ) / (grayCount img : ℚ)

-- ====== VARIANT WEIGHTING (module constants) ======

/-- `VARIANTS = ["noise","lines","shapes","strokes","plasma","life","halftone","burst","maze"]` -/
def VARIANTS : List String :=
  ["noise", "lines", "shapes", "strokes", "plasma", "life", "halftone", "burst", "maze"]

/-- `WEIGHTS_BASE` weight map (floats embedded as exact rationals). -/
def WEIGHTS_BASE : List (String × ℚ) :=
  [("plasma", 36/100),
   ("lines", 10/100), ("shapes", 10/100), ("strokes", 10/100), ("noise", 10/100),
   ("life", 10/100), ("halftone", 6/100), ("burst", 5/100), ("maze", 3/100)]

/-- `WEIGHTS_ALT` weight map. -/
def WEIGHTS_ALT : List (String × ℚ) :=
  [("plasma", 28/100),
   ("lines", 14/100), ("shapes", 14/100), ("strokes", 12/100), ("noise", 10/100),
   ("life", 8/100), ("halftone", 7/100), ("burst", 5/100), ("maze", 2/100)]

/-- `{**WEIGHTS_ALT, "plasma": 0.22}`: the alternate weights with the
plasma entry overridden, as built at the layering call site. -/
def WEIGHTS_ALT_LAYER : List (String × ℚ) :=
  [("plasma", 22/100),
   ("lines", 14/100), ("shapes", 14/100), ("strokes", 12/100), ("noise", 10/100),
   ("life", 8/100), ("halftone", 7/100), ("burst", 5/100), ("maze", 2/100)]

/-- `weights.get(i, 1.0)`: dictionary lookup with default 1.0. -/
def weightsGet (weights : List (String × ℚ)) (i : String) : ℚ :=
  match weights.find? (fun kv => kv.1 = i) with
  | some kv => kv.2
  | none => 1

/-- Model of a seeded `numpy.random.Generator` over an abstract state type
`σ`: each primitive consumes state and returns a value together with the
next state.  The proof fields record guarantees of the numpy primitives
(results in range, `shuffle` permutes). -/
structure NpRng (σ : Type) where
  /-- `np.random.default_rng(seed)`: the initial generator state is a
  function of the seed alone. -/
  init : ℕ → σ
  /-- `rng.random()`: uniform float in [0,1). -/
  random : σ → ℚ × σ
  /-- `rng.uniform(lo, hi)`. -/
  unif : ℚ → ℚ → σ → ℚ × σ
  /-- `rng.integers(lo, hi)`: integer in [lo, hi). -/
  integers : ℕ → ℕ → σ → ℕ × σ
  /-- `rng.choice(n, p=p)`: index in [0, n) drawn by the weights `p`. -/
  choice : ℕ → List ℚ → σ → ℕ × σ
  /-- `rng.shuffle(out)` on the maze neighbour list: permutes in place. -/
  shuffle : List ((ℤ × ℤ) × (ℤ × ℤ)) → σ → List ((ℤ × ℤ) × (ℤ × ℤ)) × σ
  choice_lt : ∀ n p s, 0 < n → (choice n p s).1 < n
  integers_lt : ∀ lo hi s, lo < hi → (integers lo hi s).1 < hi
  integers_le : ∀ lo hi s, lo < hi → lo ≤ (integers lo hi s).1
  shuffle_perm : ∀ l s, ((shuffle l s).1).Perm l

/-- Model of the module-global `random` module state: `random.choice(items)`
is a uniform index draw from the hidden global state. -/
structure GRng (γ : Type) where
  /-- `random.choice` on a list of length `n`: uniform index in [0, n). -/
  choiceIdx : ℕ → γ → ℕ × γ
  choiceIdx_lt : ∀ n g, 0 < n → (choiceIdx n g).1 < n

/-- `weighted_pick(rng, items, weights)` from `print_random_art.py`:

    w = np.array([weights.get(i, 1.0) for i in items]); w_sum = w.sum()
    if w_sum <= 0: return random.choice(items)       # global random state
    p = w / w_sum; idx = int(rng.choice(len(items), p=p)); return items[idx]

The result carries the picked item, the updated generator state and the
updated global `random` state. -/
def weighted_pick {σ γ : Type} (R : NpRng σ) (G : GRng γ) (rs : σ) (g : γ)
    (items : List String) (weights : List (String × ℚ)) : String × σ × γ :=
  let w := items.map (fun i => weightsGet weights i)
  let w_sum := w.sum
  if w_sum ≤ 0 then
    let kg := G.choiceIdx items.length g
    (items.getD kg.1 "", rs, kg.2)
  else
    let p := w.map (fun x => x / w_sum)
    let ir := R.choice items.length p rs
    (items.getD ir.1 "", ir.2, g)

-- ====== ESC/POS SEND: bit packing and byte stream ======

/-- The inner byte-accumulation of the band-packing loop of
`send_image_escpos`, one row at a time:

    byte = 0
    for x in range(w):
        if band.getpixel((x, yy)) < 128: byte |= (1 << (7 - (x % 8)))
        if (x % 8) == 7: band_data.append(byte); byte = 0
    if (w % 8) != 0: band_data.append(byte)

`x` is the running pixel index, `byte` the accumulator; a pixel below 128
is a black pixel, i.e. `true` in our 1-bit rasters. -/
def packRowGo : List Bool → ℕ → ℕ → List ℕ
  | [], x, byte => if x % 8 ≠ 0 then [byte] else []
  | b :: rest, x, byte =>
    let byte' := if b then byte ||| (1 <<< (7 - x % 8)) else byte
    if x % 8 = 7 then byte' :: packRowGo rest (x + 1) 0
    else packRowGo rest (x + 1) byte'

/-- MSB-first packing of one pixel row into bytes. -/
def packRow (row : List Bool) : List ℕ := packRowGo row 0 0

/-- Packing of a whole band (`band_data`): rows are packed in order and
their bytes concatenated. -/
def packBand (band : BitImg) : List ℕ := (band.map packRow).flatten

/-- Unpacking one row: pixel `x` of the row is bit `7 - x % 8` of byte
`x / 8` of the packed row (MSB-first, row-major). -/
def unpackRow (w : ℕ) (bytes : List ℕ) : List Bool :=
  (List.range w).map (fun x => (bytes.getD (x / 8) 0).testBit (7 - x % 8))

/-- Unpacking a band of `h` rows of width `w` from its packed bytes, the
rows being consecutive runs of `(w+7)/8` bytes. -/
def unpackBand (w h : ℕ) (bytes : List ℕ) : BitImg :=
  (List.range h).map (fun yy => unpackRow w ((bytes.drop (yy * ((w + 7) / 8))).take ((w + 7) / 8)))

/-- `ESC_INIT = b"\x1B\x40"` -/
def ESC_INIT : List ℕ := [0x1B, 0x40]

/-- `ESC_2 = b"\x1B\x32"` (default line spacing) -/
def ESC_2 : List ℕ := [0x1B, 0x32]

/-- `GS_INVERT_OFF = b"\x1D\x42\x00"` -/
def GS_INVERT_OFF : List ℕ := [0x1D, 0x42, 0x00]

/-- `GS_FULL_CUT = b"\x1D\x56\x00"` -/
def GS_FULL_CUT : List ℕ := [0x1D, 0x56, 0x00]

/-- The `GS v 0` raster header of one band:
`b"\x1D\x76\x30\x00" + bytes([xL, xH, yL, yH])` where `xL/xH` is the
byte-width and `yL/yH` the band height, both little-endian 16-bit. -/
def bandHeader (bytes_per_row band_h : ℕ) : List ℕ :=
  [0x1D, 0x76, 0x30, 0x00,
   bytes_per_row % 256, (bytes_per_row >>> 8) % 256,
   band_h % 256, (band_h >>> 8) % 256]

/-- The band-sending `while y < h` loop of `send_image_escpos`, as the
concatenation of the byte payloads passed to `sock.sendall`, band by band:
each step takes `band_h = min(rows_per_chunk, h - y)` rows starting at
row `y`, sends the raster header followed by the packed band, and advances
`y` by `band_h`.  `fuel` bounds the iteration count (each iteration
consumes at least one row when `rows_per_chunk > 0`, so `h` iterations
always suffice). -/
def sendBandsGo (img : BitImg) (rpc : ℕ) : ℕ → ℕ → List ℕ
  | 0, _ => []
  | fuel + 1, y =>
    let h := bitHeight img
    if h ≤ y then []
    else
      let band_h := min rpc (h - y)
      let band := (img.drop y).take band_h
      bandHeader ((bitWidth img + 7) / 8) band_h ++ packBand band
        ++ sendBandsGo img rpc fuel (y + band_h)

/-- All bytes written to the printer socket by `send_image_escpos`, in
order: the concatenation of every `sendall` payload from connection to
close — init, line spacing, inversion off, the band loop, the trailing
feed `b"\n\n\n"` and the full cut. -/
def escposStream (img : BitImg) (rpc : ℕ) : List ℕ :=
  ESC_INIT ++ ESC_2 ++ GS_INVERT_OFF
    ++ sendBandsGo img rpc (bitHeight img) 0
    ++ [0x0A, 0x0A, 0x0A] ++ GS_FULL_CUT

/-- Partition of a list into consecutive chunks of `n` elements (the last
chunk possibly shorter) — the band decomposition of the image rows. -/
def chunksOf (n : ℕ) : List α → List (List α)
  | [] => []
  | a :: l =>
    if h : n = 0 then []
    else (a :: l).take n :: chunksOf n ((a :: l).drop n)
  termination_by l => l.length
  decreasing_by
    simp only [List.length_drop, List.length_cons]
    omega

-- ====== MAZE GENERATION (gen_maze) ======

/-- A coarse-grid cell, as the (row, column) integer pair indexing the
numpy arrays `grid` / `visited` of `gen_maze`. -/
abbrev Cell := ℤ × ℤ

/-- `dirs = [(1,0), (-1,0), (0,1), (0,-1)]` -/
def mazeDirs : List (ℤ × ℤ) := [(1, 0), (-1, 0), (0, 1), (0, -1)]

/-- `0 <= r < rows and 0 <= c < cols`: the bound check of `nbs` (and the
condition under which indexing `visited[r, c]` is in range). -/
def inBounds (rows cols : ℕ) (p : Cell) : Prop :=
  0 ≤ p.1 ∧ p.1 < (rows : ℤ) ∧ 0 ≤ p.2 ∧ p.2 < (cols : ℤ)

instance (rows cols : ℕ) (p : Cell) : Decidable (inBounds rows cols p) := by
  unfold inBounds; infer_instance

/-- `nbs(r, c)` before shuffling: for each direction `(dr, dc)`, the
2-step target `(r + 2dr, c + 2dc)` when it is in bounds and unvisited,
paired with the connector wall cell `(r + dr, c + dc)` that the carve step
will open. -/
def mazeNbs (rows cols : ℕ) (visited : Finset Cell) (p : Cell) :
    List (Cell × Cell) :=
  mazeDirs.filterMap (fun d =>
    let n : Cell := (p.1 + 2 * d.1, p.2 + 2 * d.2)
    if inBounds rows cols n ∧ n ∉ visited then
      some (n, (p.1 + d.1, p.2 + d.2))
    else none)

/-- The mutable state of the depth-first carving loop: the `visited`
boolean array, the `grid` path array (as the set of cells equal to 1),
the cell `stack`, and the generator state used by `rng.shuffle`. -/
structure MazeState (σ : Type) where
  visited : Finset Cell
  grid : Finset Cell
  stack : List Cell
  rs : σ

/-- The `while stack:` depth-first carving loop of `gen_maze`:

    r, c = stack[-1]; neigh = nbs(r, c)
    if not neigh: stack.pop(); continue
    nr, nc, dr, dc = neigh[0]
    grid[r + dr, c + dc] = 1; grid[nr, nc] = 1
    visited[nr, nc] = True; stack.append((nr, nc))

`fuel` bounds the number of iterations; `2*rows*cols + 1` always
suffices (each iteration either marks an unvisited cell visited or pops
the stack, see `mazeLoop_stack_empty`). -/
def mazeLoop {σ : Type} (R : NpRng σ) (rows cols : ℕ) :
    ℕ → MazeState σ → MazeState σ
  | 0, st => st
  | fuel + 1, st =>
    match st.stack with
    | [] => st
    | p :: rest =>
      let ns := R.shuffle (mazeNbs rows cols st.visited p) st.rs
      match ns.1 with
      | [] => mazeLoop R rows cols fuel ⟨st.visited, st.grid, rest, ns.2⟩
      | (n, wall) :: _ =>
        mazeLoop R rows cols fuel
          ⟨insert n st.visited, insert wall (insert n st.grid),
           n :: p :: rest, ns.2⟩

/-- The carving phase of `gen_maze(seed, w, h)` up to the finished coarse
grid (the subsequent block rendering, upscaling and blur do not touch the
carving):

    cols = max(16, w // rng.integers(18, 28))
    rows = max(16, h // rng.integers(18, 28))
    r0 = int(rng.integers(0, rows) | 1); c0 = int(rng.integers(0, cols) | 1)
    stack = [(r0, c0)]; visited[r0, c0] = True; grid[r0, c0] = 1
    ... depth-first loop ...

Writing `visited[r0, c0]` raises `IndexError` when `(r0, c0)` is out of
range; the model returns `none` in that case. -/
def genMazeGrid {σ : Type} (R : NpRng σ) (w h : ℕ) (s : σ) :
    Option (MazeState σ) :=
  let d1 := R.integers 18 28 s
  let cols := max 16 (w / d1.1)
  let d2 := R.integers 18 28 d1.2
  let rows := max 16 (h / d2.1)
  let ri := R.integers 0 rows d2.2
  let r0 : ℤ := ((ri.1 : ℕ) ||| 1 : ℕ)
  let ci := R.integers 0 cols ri.2
  let c0 : ℤ := ((ci.1 : ℕ) ||| 1 : ℕ)
  if inBounds rows cols (r0, c0) then
    some (mazeLoop R rows cols (2 * rows * cols + 1)
      ⟨{(r0, c0)}, {(r0, c0)}, [(r0, c0)], ci.2⟩)
  else none

/-- One 2-step move of the carving graph: `b` is an in-bounds cell two
grid steps from `a` in one of the four directions.  `nbs` enumerates
exactly the unvisited cells reachable this way. -/
def twoStep (rows cols : ℕ) (a b : Cell) : Prop :=
  ∃ d ∈ mazeDirs, b = (a.1 + 2 * d.1, a.2 + 2 * d.2) ∧ inBounds rows cols b

/-- Reachability from the start cell through 2-step moves: the cells the
depth-first carving is expected to visit. -/
def reach2 (rows cols : ℕ) (start c : Cell) : Prop :=
  Relation.ReflTransGen (twoStep rows cols) start c

/-- Two cells are one grid step apart (the 4-neighbour adjacency of the
rendered maze path). -/
def adj1 (a b : Cell) : Prop :=
  (a.1 - b.1).natAbs + (a.2 - b.2).natAbs = 1

/-- `b` is connected to `a` through carved cells of `S`: a path of
1-step adjacencies staying inside `S`. -/
def connIn (S : Finset Cell) (a b : Cell) : Prop :=
  Relation.ReflTransGen (fun x y => x ∈ S ∧ y ∈ S ∧ adj1 x y) a b

/-- A concrete `NpRng` instance over a list-of-naturals state, used to
exhibit concrete executions: `integers lo hi` pops the head of the list
(clamping into range), `shuffle` is the identity permutation, `random`,
`uniform` and `choice` return fixed in-range values. -/
def streamRng : NpRng (List ℕ) where
  init := fun _ => []
  random := fun s => (1/2, s)
  unif := fun lo _ s => (lo, s)
  integers := fun lo hi s =>
    match s with
    | [] => (lo, [])
    | a :: rest => (if lo ≤ a ∧ a < hi then a else lo, rest)
  choice := fun _ _ s => (0, s)
  shuffle := fun l s => (l, s)
  choice_lt := fun n _ _ h => h
  integers_lt := by
    intro lo hi s h
    match s with
    | [] => exact h
    | a :: rest =>
      simp only
      split
      · next h2 => exact h2.2
      · exact h
  integers_le := by
    intro lo hi s h
    match s with
    | [] => exact Nat.le_refl lo
    | a :: rest =>
      simp only
      split
      · next h2 => exact h2.1
      · exact Nat.le_refl lo
  shuffle_perm := fun l s => List.Perm.refl l

-- ====== LEVELING / TRIMMING / DITHER (prep_for_printer and helpers) ======

/-- Python `int(x)` on a float: truncation toward zero, embedded on `ℚ`
via numerator/denominator division (Lean `Int` division truncates). -/
def pyInt (q : ℚ) : ℤ := q.num.tdiv (q.den : ℤ)

/-- `img.histogram()`: occurrence count of every gray value `0..255`. -/
def histList (img : GrayImg) : List ℕ :=
  (List.range 256).map (fun v => (img.map (fun row => row.count v)).sum)

/-- The low-end cutoff loop of `ImageOps.autocontrast`: remove `cut`
samples from the histogram starting at bin 0 —

    for lo in range(256):
        if cut > h[lo]: cut -= h[lo]; h[lo] = 0
        else: h[lo] -= cut; cut = 0
        if cut <= 0: break
-/
def cutLow : List ℕ → ℕ → List ℕ
  | [], _ => []
  | b :: rest, cut => if cut > b then 0 :: cutLow rest (cut - b) else (b - cut) :: rest

/-- The symmetric high-end cutoff loop (runs from bin 255 downwards). -/
def cutHigh (h : List ℕ) (cut : ℕ) : List ℕ := (cutLow h.reverse cut).reverse

/-- `ImageOps.autocontrast(img, cutoff=(c1, c2))` for an "L" image:
cut `n*c1//100` samples from the low end and `n*c2//100` from the high end
of the histogram, find the lowest and highest remaining samples, and remap
linearly so they span `0..255` (identity when `hi <= lo`); output values
are truncated and clamped to `0..255`. -/
def autocontrast (c1 c2 : ℕ) (img : GrayImg) : GrayImg :=
  let h := histList img
  let n := h.sum
  let h1 := cutLow h (n * c1 / 100)
  let h2 := cutHigh h1 (n * c2 / 100)
  let lo := h2.findIdx (fun b => b ≠ 0)
  let hi := 255 - h2.reverse.findIdx (fun b => b ≠ 0)
  if hi ≤ lo then img
  else
    let scale : ℚ := 255 / ((hi : ℚ) - (lo : ℚ))
    let offset : ℚ := -(lo : ℚ) * scale
    img.map (fun row => row.map (fun ix =>
      (min 255 (max 0 (pyInt ((ix : ℚ) * scale + offset)))).toNat))

/-- `ImageEnhance.Contrast(img).enhance(factor)`: blend between the
constant image at the rounded mean gray (`int(mean + 0.5)`) and `img`
with blending factor `factor`; for `factor > 1` Pillow extrapolates and
clips the result to `0..255`, truncating to an 8-bit value. -/
def contrastEnhance (factor : ℚ) (img : GrayImg) : GrayImg :=
  let degenerate : ℚ := ((pyInt (grayMean img + 1/2)).toNat : ℚ)
  img.map (fun row => row.map (fun p : ℕ =>
    let temp : ℚ := degenerate + factor * ((p : ℚ) - degenerate)
    if temp ≤ 0 then 0 else if 255 ≤ temp then 255 else (pyInt temp).toNat))

/-- The gamma lookup table of `_auto_levels`:
`min(255, max(0, int((i/255.0) ** gamma * 255)))`, the float power
embedded as the real power. -/
noncomputable def gammaVal (g : ℚ) (i : ℕ) : ℕ :=
  min 255 (max 0 (Int.toNat ⌊((i : ℝ) / 255) ^ (g : ℝ) * 255⌋))

/-- `img.point(lut)` for the gamma table: every pixel is replaced by its
table entry. -/
noncomputable def gammaPoint (g : ℚ) (img : GrayImg) : GrayImg :=
  img.map (fun row => row.map (gammaVal g))

/-- `_auto_levels(img, black_point, white_point, contrast_boost, gamma)`:
autocontrast with cutoffs `int(black_point*100)` / `int(white_point*100)`,
then the contrast boost, then the gamma curve. -/
noncomputable def autoLevels (bp wp cb g : ℚ) (img : GrayImg) : GrayImg :=
  gammaPoint g (contrastEnhance cb
    (autocontrast (pyInt (bp * 100)).toNat (pyInt (wp * 100)).toNat img))

/-- One iteration of the midtone-target loop of `prep_for_printer`:
re-level toward the target mean when the measured mean is more than 12
below or above it, otherwise leave the image unchanged (the loop `break`s,
and an unchanged image makes the next iteration a no-op as well). -/
noncomputable def meanStep (target_mean : ℚ) (img : GrayImg) : GrayImg :=
  if grayMean img < target_mean - 12 then
    autoLevels (4/100) (6/100) (11/10) (9/10) img
  else if grayMean img > target_mean + 12 then
    autoLevels (6/100) (4/100) (11/10) (11/10) img
  else img

/-- The Pillow `convert("1", dither=Image.FLOYDSTEINBERG)` error diffusion,
one pixel of one row: the working level is the pixel plus the error
carried from the left (`le`) plus the error diffused from the row above
(head of `errs`); levels above 128 emit white (mode-"1" 255, our `false`),
the residual error is split half to the right and half below (the C
arithmetic right shift is floor division). -/
def ditherRowGo : List ℕ → List ℤ → ℤ → List Bool × List ℤ
  | [], _, _ => ([], [])
  | p :: ps, errs, le =>
    let l : ℤ := (p : ℤ) + le + errs.headD 0
    let lres : ℤ := if l > 128 then l - 255 else l
    let le' := Int.fdiv lres 2
    let r := ditherRowGo ps errs.tail le'
    ((decide (¬ l > 128)) :: r.1, (lres - le') :: r.2)

/-- Row-by-row Floyd–Steinberg error diffusion: each row consumes the
below-errors of the previous row and produces the next. -/
def ditherGo : List (List ℕ) → List ℤ → List (List Bool)
  | [], _ => []
  | row :: rest, errs =>
    let r := ditherRowGo row errs 0
    r.1 :: ditherGo rest r.2

/-- `img_gray.convert("1", dither=Image.FLOYDSTEINBERG)`. -/
def ditherFS (img : GrayImg) : BitImg :=
  ditherGo img (List.replicate (grayWidth img) 0)

/-- Mean of one pixel row (`ImageStat.Stat(row_crop).mean[0]`). -/
def rowMean (row : List ℕ) : ℚ :=
  if row.length = 0 then 0 else (row.sum : ℚ) / (row.length : ℚ)

/-- `row_black_fraction(y) = 1.0 - mean/255.0` of `_trim_bands_tb`. -/
def rowBlackFraction (row : List ℕ) : ℚ := 1 - rowMean row / 255

/-- The top-trim scan of `_trim_bands_tb`: walk rows from index `y`
upward, stopping when the per-side cap `max_trim` is reached or at the
first row that is neither near-solid black nor near-solid white; the
result is the first kept row index (= rows removed from this side). -/
def trimScan (bf wf : ℚ) (max_trim : ℤ) : List (List ℕ) → ℕ → ℕ
  | [], y => y
  | row :: rest, y =>
    if (y : ℤ) ≥ max_trim then y
    else
      let b := rowBlackFraction row
      if b ≥ bf ∨ 1 - b ≥ wf then trimScan bf wf max_trim rest (y + 1)
      else y

/-- Rows removed from the top by `_trim_bands_tb` (the final value of
`top`). -/
def topTrimCount (img : BitImg) (bf wf ratio : ℚ) : ℕ :=
  let g := bitToGray img
  trimScan bf wf (pyInt ((bitHeight img : ℚ) * ratio)) g 0

/-- Rows removed from the bottom by `_trim_bands_tb` (`h -` the final
value of `bottom`): the downward scan is the top scan of the reversed row
list, with the same cap. -/
def botTrimCount (img : BitImg) (bf wf ratio : ℚ) : ℕ :=
  let g := bitToGray img
  trimScan bf wf (pyInt ((bitHeight img : ℚ) * ratio)) g.reverse 0

/-- `_trim_bands_tb(img_1, black_frac, white_frac, max_ratio)`: crop away
the trimmable top and bottom bands, except when `bottom <= top`, where the
input is returned unchanged. -/
def trimBands (img : BitImg) (bf wf ratio : ℚ) : BitImg :=
  let top := topTrimCount img bf wf ratio
  let bottom := bitHeight img - botTrimCount img bf wf ratio
  if bottom ≤ top then img
  else (img.drop top).take (bottom - top)

/-- Whether column `x` of the gray image has any pixel below 250
(the column-emptiness test of `_crop_whitespace_lr`). -/
def colHasDark (g : GrayImg) (x : ℕ) : Prop :=
  ∃ row ∈ g, row.getD x 255 < 250

instance (g : GrayImg) (x : ℕ) : Decidable (colHasDark g x) := by
  unfold colHasDark; infer_instance

/-- `_crop_whitespace_lr(img_l_or_1)`: crop pure-white columns from left
and right only; `left` stays 0 and `right` stays `w-1` when no column has
a dark pixel, and the image is returned unchanged when `right <= left`. -/
def cropWhitespaceLR (img : BitImg) : BitImg :=
  let g := bitToGray img
  let w := bitWidth img
  let left := match (List.range w).find? (fun x => decide (colHasDark g x)) with
    | some x => x
    | none => 0
  let right := match (List.range w).reverse.find? (fun x => decide (colHasDark g x)) with
    | some x => x
    | none => w - 1
  if right ≤ left then img
  else img.map (fun row => (row.drop left).take (right + 1 - left))

/-- A row of `n` white mode-"1" pixels. -/
def whiteRow (n : ℕ) : List Bool := List.replicate n false

/-- Pasting a row into a white row of length `total` at column `offset`
(`padded.paste(img_1, (offset, ...))` row-wise). -/
def pasteRow (total offset : ℕ) (row : List Bool) : List Bool :=
  whiteRow offset ++ row ++ whiteRow (total - offset - row.length)

/-- `MIN_FINAL_ROWS` (env default `"900"`). -/
def MIN_FINAL_ROWS : ℕ := 900

/-- `MIN_BASE_HEIGHT` (env default `"900"`). -/
def MIN_BASE_HEIGHT : ℕ := 900

/-- `prep_for_printer(img_gray, max_width, target_mean=140, margin_px=8,
margin_tb=6)`:  scale to width (the bilinear `resize` is passed in as the
embedding of the PIL resampler; it is only consulted when the width
differs), stabilise levels and nudge midtones (two capped iterations),
dither to 1-bit, trim top/bottom bands, crop side whitespace, add white
margins, right-pad the width to a multiple of 8, re-level/re-dither/
re-trim/re-crop once if the result is almost uniform, and finally pad the
bottom with white rows up to `MIN_FINAL_ROWS`. -/
noncomputable def prep_for_printer (resize : GrayImg → ℕ → GrayImg)
    (img0 : GrayImg) (max_width : ℕ) (target_mean : ℚ)
    (margin_px margin_tb : ℕ) : BitImg :=
  -- scale to width
  let img_gray := if grayWidth img0 = max_width then img0 else resize img0 max_width
  -- levels + midtone target (loop of two iterations; `break` = no-op step)
  let img_gray := autoLevels (5/100) (5/100) (23/20) (19/20) img_gray
  let img_gray := meanStep target_mean (meanStep target_mean img_gray)
  -- dither to 1-bit
  let img_1 := ditherFS img_gray
  -- trim top/bottom bands and side whitespace
  let img_1 := trimBands img_1 (97/100) (997/1000) (25/100)
  let img_1 := cropWhitespaceLR img_1
  -- add margins (L/R and T/B)
  let img_1 :=
    if 0 < margin_px ∨ 0 < margin_tb then
      let w := bitWidth img_1
      let tot := w + margin_px * 2
      List.replicate margin_tb (whiteRow tot)
        ++ img_1.map (pasteRow tot margin_px)
        ++ List.replicate margin_tb (whiteRow tot)
    else img_1
  -- ensure width multiple of 8 (pad with white so it won't print)
  let w := bitWidth img_1
  let pad := (8 - w % 8) % 8
  let img_1 :=
    if pad ≠ 0 then img_1.map (fun row => row ++ whiteRow (w + pad - row.length))
    else img_1
  -- sanity fallback if almost uniform
  let white_fraction := grayMean (bitToGray img_1) / 255
  let img_1 :=
    if white_fraction > 98/100 ∨ white_fraction < 2/100 then
      let img_gray2 := autoLevels (8/100) (8/100) (5/4) 1 img_gray
      cropWhitespaceLR (trimBands (ditherFS img_gray2) (97/100) (997/1000) (25/100))
    else img_1
  -- enforce minimum final height (pad white at bottom if needed)
  let w := bitWidth img_1
  let h := bitHeight img_1
  if h < MIN_FINAL_ROWS then img_1 ++ List.replicate (MIN_FINAL_ROWS - h) (whiteRow w)
  else img_1

-- ====== ART GENERATORS (abstracted) AND COMPOSITOR ======

/-- The nine texture generators of `print_random_art.py` and the PIL
rotation, abstracted as the pixel-producing functions they are: each
generator is a pure function of `(seed, w, h)` (they derive all their
randomness from `random.Random(seed)` / `np.random.default_rng(seed)`),
and `rotate k` is `img.rotate(k, expand=False)`.  The determinism claims
concern only how `generate_image` consumes randomness, not the pixel
content of the layers, so the layer bitmaps are left abstract. -/
structure GenSet where
  gen_noise : ℕ → ℕ → ℕ → GrayImg
  gen_lines : ℕ → ℕ → ℕ → GrayImg
  gen_shapes : ℕ → ℕ → ℕ → GrayImg
  gen_strokes : ℕ → ℕ → ℕ → GrayImg
  gen_plasma : ℕ → ℕ → ℕ → GrayImg
  gen_life : ℕ → ℕ → ℕ → GrayImg
  gen_halftone : ℕ → ℕ → ℕ → GrayImg
  gen_radial_burst : ℕ → ℕ → ℕ → GrayImg
  genMazeImg : ℕ → ℕ → ℕ → GrayImg
  rotate : ℕ → GrayImg → GrayImg

/-- The `make_layer(v, s)` dispatch of `generate_image`.  `use_variant`
is always a member of `VARIANTS`, so the final branch (where Python would
return `None`) is unreachable; it is embedded as the empty raster. -/
def make_layer (Gs : GenSet) (v : String) (s w h : ℕ) : GrayImg :=
  if v = "noise" then Gs.gen_noise s w h
  else if v = "lines" then Gs.gen_lines s w h
  else if v = "shapes" then Gs.gen_shapes s w h
  else if v = "strokes" then Gs.gen_strokes s w h
  else if v = "plasma" then Gs.gen_plasma s w h
  else if v = "life" then Gs.gen_life s w h
  else if v = "halftone" then Gs.gen_halftone s w h
  else if v = "burst" then Gs.gen_radial_burst s w h
  else if v = "maze" then Gs.genMazeImg s w h
  else []

/-- `img.transpose(Image.FLIP_LEFT_RIGHT)`: mirror every row. -/
def flipLR (img : GrayImg) : GrayImg := img.map List.reverse

/-- `img.transpose(Image.FLIP_TOP_BOTTOM)`: reverse the row order. -/
def flipTB (img : GrayImg) : GrayImg := img.reverse

/-- `random_flip_rotate(img, rng)`: flip horizontally with probability
1/2, flip vertically with probability 1/2, then rotate by `90 * k` for
`k = rng.integers(0, 4)` when `k` is nonzero. -/
def random_flip_rotate {σ : Type} (R : NpRng σ) (Gs : GenSet)
    (img : GrayImg) (s : σ) : GrayImg × σ :=
  let r1 := R.random s
  let img := if r1.1 < 1/2 then flipLR img else img
  let r2 := R.random r1.2
  let img := if r2.1 < 1/2 then flipTB img else img
  let k := R.integers 0 4 r2.2
  (if k.1 ≠ 0 then Gs.rotate (90 * k.1) img else img, k.2)

/-- Pixel-wise combination of two rasters (the PIL chops operate on the
overlapping region). -/
def zipPix (f : ℕ → ℕ → ℕ) (a b : GrayImg) : GrayImg :=
  List.zipWith (List.zipWith f) a b

/-- The Pillow `MULDIV255` macro: `a * b / 255` with round-to-nearest
(`tmp = a*b + 128; ((tmp >> 8) + tmp) >> 8`). -/
def muldiv255 (a b : ℕ) : ℕ :=
  let t := a * b + 128
  ((t >>> 8) + t) >>> 8

/-- `ImageChops.multiply`: per-pixel `MULDIV255(a, b)`. -/
def multiplyPix (a b : ℕ) : ℕ := muldiv255 a b

/-- `ImageChops.add(a, b, scale=1.0, offset=0)`: per-pixel saturating sum. -/
def addPix (a b : ℕ) : ℕ := min 255 (a + b)

/-- `ImageChops.screen`: per-pixel `255 - MULDIV255(255-a, 255-b)`. -/
def screenPix (a b : ℕ) : ℕ := 255 - muldiv255 (255 - a) (255 - b)

/-- `Image.blend(a, mixed, opacity)` per pixel: linear interpolation
`a + opacity * (mixed - a)`, truncated to an 8-bit value. -/
def blendPix (op : ℚ) (a m : ℕ) : ℕ :=
  (pyInt ((a : ℚ) + op * ((m : ℚ) - (a : ℚ)))).toNat

/-- `blend_layers(a, b, mode, opacity)`: apply the chosen chop, then
interpolate toward the original when `opacity < 1.0`. -/
def blend_layers (a b : GrayImg) (mode : String) (opacity : ℚ) : GrayImg :=
  let mixed :=
    if mode = "multiply" then zipPix multiplyPix a b
    else if mode = "add" then zipPix addPix a b
    else zipPix screenPix a b
  if opacity < 1 then zipPix (fun x m => blendPix opacity x m) a mixed else mixed

/-- The edge-softener mask value at `(x, y)`:
`int(255 * min(1.0, r*r))` where `r` is the radial distance from the
centre normalised by `hypot(cx, cy)` — `r*r` is the exact rational
`((x-cx)^2 + (y-cy)^2) / (cx^2 + cy^2)`. -/
def edgeMaskVal (cx cy x y : ℕ) : ℕ :=
  (pyInt (255 * min 1 ((((x : ℚ) - (cx : ℚ)) ^ 2 + ((y : ℚ) - (cy : ℚ)) ^ 2)
    / ((cx : ℚ) ^ 2 + (cy : ℚ) ^ 2)))).toNat

/-- `Image.composite(white, img, mask)` per pixel: paste white over the
pixel weighted by the mask. -/
def compositeWhitePix (p m : ℕ) : ℕ :=
  muldiv255 255 m + muldiv255 p (255 - m)

/-- The edge-lightening step of `generate_image`: build the radial mask,
attenuate it by `strength` (`Image.blend` from the zero mask), and
composite the image toward white through it. -/
def edgeSoften (img : GrayImg) (strength : ℚ) : GrayImg :=
  let w := grayWidth img
  let h := grayHeight img
  let cx := w / 2
  let cy := h / 2
  let mask : GrayImg :=
    (List.range h).map (fun y => (List.range w).map (fun x => edgeMaskVal cx cy x y))
  let mask :=
    if strength < 1 then mask.map (fun row => row.map (fun m => (pyInt (strength * (m : ℚ))).toNat))
    else mask
  zipPix compositeWhitePix img mask

/-- The body of the extra-layer loop of `generate_image` (one iteration):
pick an alternate variant avoiding the base variant, generate it from a
perturbed seed, transform it, then blend it in — the source blends twice,
with two independently drawn mode/opacity pairs (the second block is a
verbatim leftover duplicate in the code). -/
def layerStep {σ γ : Type} (R : NpRng σ) (G : GRng γ) (Gs : GenSet)
    (use_variant : String) (seed base_w base_h : ℕ) :
    GrayImg × σ × γ → GrayImg × σ × γ :=
  fun st =>
    let img := st.1
    let alt_choices := VARIANTS.filter (fun v => v ≠ use_variant)
    let p1 := weighted_pick R G st.2.1 st.2.2 alt_choices WEIGHTS_ALT_LAYER
    let di := R.integers 1000 9999 p1.2.1
    let img2 := make_layer Gs p1.1 ((seed + di.1) % 2 ^ 32) base_w base_h
    let fr := random_flip_rotate R Gs img2 di.2
    let r1 := R.random fr.2
    let mo1 :=
      if r1.1 < 22/100 then ("multiply", R.unif (32/100) (50/100) r1.2)
      else if r1.1 < 70/100 then ("screen", R.unif (45/100) (80/100) r1.2)
      else ("add", R.unif (38/100) (70/100) r1.2)
    let img' := blend_layers img fr.1 mo1.1 mo1.2.1
    let r2 := R.random mo1.2.2
    let mo2 :=
      if r2.1 < 25/100 then ("multiply", R.unif (33/100) (55/100) r2.2)
      else if r2.1 < 70/100 then ("screen", R.unif (45/100) (85/100) r2.2)
      else ("add", R.unif (40/100) (75/100) r2.2)
    (blend_layers img' fr.1 mo2.1 mo2.2.1, mo2.2.2, p1.2.2)

/-- `generate_image(variant, seed, target_width)`: the full compositor —
seeded generator, weighted base-variant pick (when the requested variant
is not registered), base layer with random flips/rotation, optional
1–2 extra blended layers, optional edge softener.  The module-global
`random` state `g0` is threaded through every `weighted_pick` call
exactly as the Python global state would be. -/
def generate_image {σ γ : Type} (R : NpRng σ) (G : GRng γ) (Gs : GenSet)
    (variant : String) (seed target_width : ℕ) (g0 : γ) : GrayImg × σ × γ :=
  let s0 := R.init seed
  let u1 := R.unif (17/10) (23/10) s0
  let base_h := max MIN_BASE_HEIGHT (pyInt ((target_width : ℚ) * u1.1)).toNat
  let base_w := target_width
  let uv :=
    if variant ∈ VARIANTS then (variant, u1.2, g0)
    else weighted_pick R G u1.2 g0 VARIANTS WEIGHTS_BASE
  let use_variant := uv.1
  let img := make_layer Gs use_variant seed base_w base_h
  let fr := random_flip_rotate R Gs img uv.2.1
  let rl := R.random fr.2
  let st :=
    if rl.1 < 60/100 then
      let rn := R.random rl.2
      let num_layers := 1 + (if rn.1 < 25/100 then 1 else 0)
      (layerStep R G Gs use_variant seed base_w base_h)^[num_layers]
        (fr.1, rn.2, uv.2.2)
    else (fr.1, rl.2, uv.2.2)
  let re := R.random st.2.1
  if re.1 < 70/100 then
    let su := R.unif (35/100) (65/100) re.2
    (edgeSoften st.1 su.1, su.2, st.2.2)
  else (st.1, re.2, st.2.2)

/-- `PRINTER_DOTS = 512` -/
def PRINTER_DOTS : ℕ := 512

/-- One run of the generation-and-preparation pipeline as `main` performs
it: `generate_image(variant, seed, width)` followed by
`prep_for_printer(img_gray, width)` (with the default preparation
parameters), given the ambient module-global `random` state `g0`. -/
noncomputable def generatePipeline {σ γ : Type} (R : NpRng σ) (G : GRng γ)
    (Gs : GenSet) (resize : GrayImg → ℕ → GrayImg) (variant : String)
    (seed width : ℕ) (g0 : γ) : BitImg :=
  prep_for_printer resize (generate_image R G Gs variant seed width g0).1
    width 140 8 6

-- ====== CLI / HEADER RENDERER (developed print script) ======

/-- Modelled from the spec: the argument record of the developed print
script (the version with `argparse` is invoked by
`love_machine.py:run_print_script` with `--name`, `--trait` and
`--archetype` but is not among the sources; spec section 6 adds the
optional `--style`). -/
structure CliArgs where
  name : Option String
  trait : Option String
  archetype : Option String
  style : Option String

/-- Modelled from the spec: flag parsing of
`--name STR --trait STR --archetype STR --style NAME` — a scan pairing
each recognised flag with the following token. -/
def parseArgs : List String → CliArgs
  | flag :: value :: rest =>
    let acc := parseArgs rest
    if flag = "--name" then { acc with name := some value }
    else if flag = "--trait" then { acc with trait := some value }
    else if flag = "--archetype" then { acc with archetype := some value }
    else if flag = "--style" then { acc with style := some value }
    else acc
  | _ => ⟨none, none, none, none⟩

/-- Modelled from the spec: style selection — a requested style that is
registered is used as-is; an invalid or omitted `--style` silently falls
back to a random registered style, drawn from the ambient global
`random` state. -/
def chooseStyle {γ : Type} (G : GRng γ) (registry : List String)
    (req : Option String) (g : γ) : String × γ :=
  match req with
  | some s => if s ∈ registry then (s, g)
              else let kg := G.choiceIdx registry.length g
                   (registry.getD kg.1 "", kg.2)
  | none => let kg := G.choiceIdx registry.length g
            (registry.getD kg.1 "", kg.2)

/-- Modelled from the spec: the fixed rendered height of one header text
line (the header font has a constant line height). -/
def HEADER_LINE_H : ℕ := 16

/-- A mode-"L" ink pixel: black (0) where the glyph bit is set, white
(255) elsewhere. -/
def bitPix (b : Bool) : ℕ := if b then 0 else 255

/-- Modelled from the spec: the glyph bitmap of one character — the
header font draws each character as black ink on white in an
8-pixel-wide cell, one column per bit of the code point; printable
characters (code points in `[32, 250)`) have distinct, non-blank cells. -/
def glyphCell (ch : Char) : List ℕ :=
  [bitPix (ch.toNat.testBit 0), bitPix (ch.toNat.testBit 1),
   bitPix (ch.toNat.testBit 2), bitPix (ch.toNat.testBit 3),
   bitPix (ch.toNat.testBit 4), bitPix (ch.toNat.testBit 5),
   bitPix (ch.toNat.testBit 6), bitPix (ch.toNat.testBit 7)]

/-- Modelled from the spec: rendering one text line of the header onto a
canvas of width `w`: a block of `HEADER_LINE_H` rows whose first row
lays the glyph cells of the text left to right, white padding to the
right — distinct printable texts render to distinct pixel blocks. -/
def renderLine (w : ℕ) (text : String) : GrayImg :=
  ((text.data.map glyphCell).flatten ++ List.replicate (w - 8 * text.length) 255)
    :: List.replicate (HEADER_LINE_H - 1) (List.replicate w 255)

/-- Modelled from the spec: the header block — up to three text lines
(name, trait, archetype; each omitted if empty), stacked. -/
def renderHeader (w : ℕ) (name trait archetype : String) : GrayImg :=
  (([name, trait, archetype].filter (fun s => s ≠ "")).map (renderLine w)).flatten

/-- Modelled from the spec: the composed canvas of the developed print
script, as handed to the preparation pipeline — the header text lines
rendered above the art, the art pasted at a vertical offset equal to the
header block height.  The printed image is `prep_for_printer` of this
canvas, which levels, trims and crops globally. -/
def composeCanvas (w : ℕ) (name trait archetype : String) (art : GrayImg) :
    GrayImg :=
  renderHeader w name trait archetype ++ art

/-- Modelled from the spec: the header region of the composed
(pre-preparation) canvas — the rows above the art paste offset. -/
def headerRegion (w : ℕ) (name trait archetype : String) (canvas : GrayImg) :
    GrayImg :=
  canvas.take (renderHeader w name trait archetype).length

/-- Modelled from the spec: the art region of the composed
(pre-preparation) canvas — the rows from the paste offset down. -/
def artRegion (w : ℕ) (name trait archetype : String) (canvas : GrayImg) :
    GrayImg :=
  canvas.drop (renderHeader w name trait archetype).length

-- ====== REMAINING CONCRETE OBJECTS FOR THE THEOREMS ======

/-- A concrete model of the global `random` module state: a counter whose
uniform choice walks through all indices. -/
def demoGRng : GRng ℕ where
  choiceIdx := fun n g => (g % n, g + 1)
  choiceIdx_lt := fun _ g h => Nat.mod_lt g h

/-- The cells of the `rows × cols` coarse grid, as a finite set. -/
def validCells (rows cols : ℕ) : Finset Cell :=
  Finset.Ico (0 : ℤ) (rows : ℤ) ×ˢ Finset.Ico (0 : ℤ) (cols : ℤ)

/-- The loop invariant of the depth-first maze carving: visited cells are
in bounds, the start is visited and carved, every visited cell off the
stack has all its 2-step moves visited, stack cells are visited and
carved, and every carved cell is connected to the start within the carved
set. -/
def mazeInv {σ : Type} (rows cols : ℕ) (start : Cell) (st : MazeState σ) : Prop :=
  (∀ p ∈ st.visited, inBounds rows cols p) ∧
  start ∈ st.visited ∧
  (∀ p ∈ st.visited, p ∈ st.stack ∨ ∀ q, twoStep rows cols p q → q ∈ st.visited) ∧
  (∀ p ∈ st.stack, p ∈ st.grid) ∧
  (∀ p ∈ st.stack, p ∈ st.visited) ∧
  start ∈ st.grid ∧
  (∀ p ∈ st.grid, connIn st.grid start p)

/-- A 16×8 grayscale image, white except for single black pixels at
`(x=2, y=3)` and `(x=4, y=4)`: a failing input for the width invariant of
`prep_for_printer` (the near-uniform fallback fires on it and re-crops to
width 3 without re-padding). -/
def img0C3 : GrayImg :=
  [List.replicate 16 255, List.replicate 16 255, List.replicate 16 255,
   [255, 255, 0] ++ List.replicate 13 255,
   List.replicate 4 255 ++ [0] ++ List.replicate 11 255,
   List.replicate 16 255, List.replicate 16 255, List.replicate 16 255]

/-- The side-cropped dithered C3 failing input (4 rows, width 3). -/
def cropC3 : BitImg :=
  [[false, false, false], [true, false, false],
   [false, false, true], [false, false, false]]

/-- `cropC3` with the default margins added (6 white rows top and bottom,
8 white columns each side: 16 rows of width 19). -/
def margC3 : BitImg :=
  List.replicate 6 (whiteRow 19)
    ++ (List.map (pasteRow 19 8) cropC3 ++ List.replicate 6 (whiteRow 19))

/-- `margC3` right-padded to width 24 (the next multiple of 8). -/
def padC3 : BitImg :=
  List.map (fun row => row ++ whiteRow (24 - row.length)) margC3

/-- A stand-in resampler for the concrete preparation runs below: the
canvases already have the target width, so `prep_for_printer` never
consults it. -/
def idResize : GrayImg → ℕ → GrayImg := fun img _ => img

/-- A 12-row, 16-wide art block: seven rows with black pixels in columns
2 and 4, then five rows with a black pixel in column 3 (19 black pixels,
every row inked, all ink inside columns 2 to 5). -/
def artC1 : GrayImg :=
  List.replicate 7 ([255, 255, 0, 255, 0] ++ List.replicate 11 255)
    ++ List.replicate 5 ([255, 255, 255, 0] ++ List.replicate 12 255)

/-- The composed canvas for name `"a"` (no trait or archetype). -/
def canvA : GrayImg := composeCanvas 16 "a" "" "" artC1

/-- The composed canvas for name `"@"` — identical to `canvA` except for
the glyph row of the header. -/
def canvB : GrayImg := composeCanvas 16 "@" "" "" artC1

/-- The dithered canvas for name `"a"` (exact thresholding of the binary canvas). -/
def bitA : BitImg :=
  [[true, false, false, false, false, true, true] ++ List.replicate 9 false,
   List.replicate 16 false,
   List.replicate 16 false,
   List.replicate 16 false,
   List.replicate 16 false,
   List.replicate 16 false,
   List.replicate 16 false,
   List.replicate 16 false,
   List.replicate 16 false,
   List.replicate 16 false,
   List.replicate 16 false,
   List.replicate 16 false,
   List.replicate 16 false,
   List.replicate 16 false,
   List.replicate 16 false,
   List.replicate 16 false,
   [false, false, true, false, true] ++ List.replicate 11 false,
   [false, false, true, false, true] ++ List.replicate 11 false,
   [false, false, true, false, true] ++ List.replicate 11 false,
   [false, false, true, false, true] ++ List.replicate 11 false,
   [false, false, true, false, true] ++ List.replicate 11 false,
   [false, false, true, false, true] ++ List.replicate 11 false,
   [false, false, true, false, true] ++ List.replicate 11 false,
   [false, false, false, true] ++ List.replicate 12 false,
   [false, false, false, true] ++ List.replicate 12 false,
   [false, false, false, true] ++ List.replicate 12 false,
   [false, false, false, true] ++ List.replicate 12 false,
   [false, false, false, true] ++ List.replicate 12 false]

/-- The dithered canvas for name `"@"`. -/
def bitB : BitImg :=
  [[false, false, false, false, false, false, true] ++ List.replicate 9 false,
   List.replicate 16 false,
   List.replicate 16 false,
   List.replicate 16 false,
   List.replicate 16 false,
   List.replicate 16 false,
   List.replicate 16 false,
   List.replicate 16 false,
   List.replicate 16 false,
   List.replicate 16 false,
   List.replicate 16 false,
   List.replicate 16 false,
   List.replicate 16 false,
   List.replicate 16 false,
   List.replicate 16 false,
   List.replicate 16 false,
   [false, false, true, false, true] ++ List.replicate 11 false,
   [false, false, true, false, true] ++ List.replicate 11 false,
   [false, false, true, false, true] ++ List.replicate 11 false,
   [false, false, true, false, true] ++ List.replicate 11 false,
   [false, false, true, false, true] ++ List.replicate 11 false,
   [false, false, true, false, true] ++ List.replicate 11 false,
   [false, false, true, false, true] ++ List.replicate 11 false,
   [false, false, false, true] ++ List.replicate 12 false,
   [false, false, false, true] ++ List.replicate 12 false,
   [false, false, false, true] ++ List.replicate 12 false,
   [false, false, false, true] ++ List.replicate 12 false,
   [false, false, false, true] ++ List.replicate 12 false]

/-- The side-cropped `bitA` (columns 0 to 6: the glyph of `"a"` inks column 0). -/
def cropA : BitImg :=
  [[true, false, false, false, false, true, true],
   List.replicate 7 false,
   List.replicate 7 false,
   List.replicate 7 false,
   List.replicate 7 false,
   List.replicate 7 false,
   List.replicate 7 false,
   List.replicate 7 false,
   List.replicate 7 false,
   List.replicate 7 false,
   List.replicate 7 false,
   List.replicate 7 false,
   List.replicate 7 false,
   List.replicate 7 false,
   List.replicate 7 false,
   List.replicate 7 false,
   [false, false, true, false, true] ++ List.replicate 2 false,
   [false, false, true, false, true] ++ List.replicate 2 false,
   [false, false, true, false, true] ++ List.replicate 2 false,
   [false, false, true, false, true] ++ List.replicate 2 false,
   [false, false, true, false, true] ++ List.replicate 2 false,
   [false, false, true, false, true] ++ List.replicate 2 false,
   [false, false, true, false, true] ++ List.replicate 2 false,
   [false, false, false, true] ++ List.replicate 3 false,
   [false, false, false, true] ++ List.replicate 3 false,
   [false, false, false, true] ++ List.replicate 3 false,
   [false, false, false, true] ++ List.replicate 3 false,
   [false, false, false, true] ++ List.replicate 3 false]

/-- The side-cropped `bitB` (columns 2 to 6: the glyph of `"@"` inks only column 6, so the art column 2 sets the left edge). -/
def cropB : BitImg :=
  [[false, false, false, false, true],
   List.replicate 5 false,
   List.replicate 5 false,
   List.replicate 5 false,
   List.replicate 5 false,
   List.replicate 5 false,
   List.replicate 5 false,
   List.replicate 5 false,
   List.replicate 5 false,
   List.replicate 5 false,
   List.replicate 5 false,
   List.replicate 5 false,
   List.replicate 5 false,
   List.replicate 5 false,
   List.replicate 5 false,
   List.replicate 5 false,
   [true, false, true] ++ List.replicate 2 false,
   [true, false, true] ++ List.replicate 2 false,
   [true, false, true] ++ List.replicate 2 false,
   [true, false, true] ++ List.replicate 2 false,
   [true, false, true] ++ List.replicate 2 false,
   [true, false, true] ++ List.replicate 2 false,
   [true, false, true] ++ List.replicate 2 false,
   [false, true] ++ List.replicate 3 false,
   [false, true] ++ List.replicate 3 false,
   [false, true] ++ List.replicate 3 false,
   [false, true] ++ List.replicate 3 false,
   [false, true] ++ List.replicate 3 false]

/-- `cropA` with the default margins added (width 7 + 16 = 23). -/
def margA : BitImg :=
  List.replicate 6 (whiteRow 23)
    ++ (List.map (pasteRow 23 8) cropA ++ List.replicate 6 (whiteRow 23))

/-- `cropB` with the default margins added (width 5 + 16 = 21). -/
def margB : BitImg :=
  List.replicate 6 (whiteRow 21)
    ++ (List.map (pasteRow 21 8) cropB ++ List.replicate 6 (whiteRow 21))

/-- `margA` right-padded to width 24. -/
def padA : BitImg :=
  List.map (fun row => row ++ whiteRow (24 - row.length)) margA

/-- `margB` right-padded to width 24. -/
def padB : BitImg :=
  List.map (fun row => row ++ whiteRow (24 - row.length)) margB

-- ====== THEOREMS ======

/-- C9: for every non-empty item list with non-negative weights,
`weighted_pick` returns an element of the list and never raises; when all
weights are zero it falls back to a uniform selection among the items
(the global `random.choice` uniform index draw). -/
theorem C9_weighted_pick_total {σ γ : Type} (R : NpRng σ) (G : GRng γ)
    (rs : σ) (g : γ) (items : List String) (weights : List (String × ℚ))
    (hne : items ≠ []) (hnn : ∀ kv ∈ weights, 0 ≤ kv.2) :
    (weighted_pick R G rs g items weights).1 ∈ items ∧
    ((∀ i ∈ items, weightsGet weights i = 0) →
      (weighted_pick R G rs g items weights).1
        = items.getD (G.choiceIdx items.length g).1 "") := by
  have hlen : 0 < items.length := List.length_pos.mpr hne
  constructor
  · simp only [weighted_pick]
    split
    · have hk := G.choiceIdx_lt items.length g hlen
      rw [List.getD_eq_getElem _ _ hk]
      exact List.getElem_mem hk
    · have hk := R.choice_lt items.length
        ((items.map (fun i => weightsGet weights i)).map
          (fun x => x / (items.map (fun i => weightsGet weights i)).sum)) rs hlen
      rw [List.getD_eq_getElem _ _ hk]
      exact List.getElem_mem hk
  · intro hz
    have hsum : (items.map (fun i => weightsGet weights i)).sum = 0 := by
      apply List.sum_eq_zero
      intro x hx
      obtain ⟨i, hi, rfl⟩ := List.mem_map.mp hx
      exact hz i hi
    simp only [weighted_pick, hsum]
    rw [if_pos le_rfl]

/-- Witness for C9 at a concrete input. -/
theorem C9_weighted_pick_total_witness :
    ((["a"] : List String) ≠ [] ∧ ∀ kv ∈ [(("a" : String), (0 : ℚ))], 0 ≤ kv.2) ∧
    (weighted_pick streamRng demoGRng [] 0 ["a"] [("a", 0)]).1 ∈ (["a"] : List String) :=
  ⟨⟨by decide, by simp⟩,
   (C9_weighted_pick_total streamRng demoGRng [] 0 ["a"] [("a", 0)]
      (by decide) (by simp)).1⟩

/-- C10: when every weight is zero, the selection of `weighted_pick` is
drawn from the module-global random state and is independent of the `rng`
argument: any two rng models/states give the same result for the same
global state, and two concrete calls with identical rng arguments but
different global random states return different items. -/
theorem C10_zero_weights_use_global_rng :
    (∀ (σ σ' : Type) (R : NpRng σ) (R' : NpRng σ') (γ : Type) (G : GRng γ)
        (rs : σ) (rs' : σ') (g : γ) (items : List String)
        (weights : List (String × ℚ)),
        (∀ i ∈ items, weightsGet weights i = 0) →
        (weighted_pick R G rs g items weights).1
          = (weighted_pick R' G rs' g items weights).1) ∧
    (weighted_pick streamRng demoGRng [] 0 ["a", "b"] [("a", 0), ("b", 0)]).1
      ≠ (weighted_pick streamRng demoGRng [] 1 ["a", "b"] [("a", 0), ("b", 0)]).1 := by
  have hz : ∀ (σ γ : Type) (R : NpRng σ) (G : GRng γ) (rs : σ) (g : γ)
      (items : List String) (weights : List (String × ℚ)),
      (∀ i ∈ items, weightsGet weights i = 0) →
      (weighted_pick R G rs g items weights).1
        = items.getD (G.choiceIdx items.length g).1 "" := by
    intro σ γ R G rs g items weights hz
    have hsum : (items.map (fun i => weightsGet weights i)).sum = 0 := by
      apply List.sum_eq_zero
      intro x hx
      obtain ⟨i, hi, rfl⟩ := List.mem_map.mp hx
      exact hz i hi
    simp only [weighted_pick, hsum]
    rw [if_pos le_rfl]
  constructor
  · intro σ σ' R R' γ G rs rs' g items weights h
    rw [hz σ γ R G rs g items weights h, hz σ' γ R' G rs' g items weights h]
  · have h0 : ∀ i ∈ (["a", "b"] : List String),
        weightsGet [("a", 0), ("b", 0)] i = 0 := by
      intro i hi
      fin_cases hi <;> simp [weightsGet]
    rw [hz _ _ streamRng demoGRng [] 0 _ _ h0, hz _ _ streamRng demoGRng [] 1 _ _ h0]
    decide

/-- Witness for C10 at a concrete input. -/
theorem C10_zero_weights_use_global_rng_witness :
    (∀ i ∈ (["a", "b"] : List String),
      weightsGet [("a", 0), ("b", 0)] i = 0) ∧
    (weighted_pick streamRng demoGRng [1, 2, 3] 5 ["a", "b"] [("a", 0), ("b", 0)]).1
      = (weighted_pick streamRng demoGRng [] 5 ["a", "b"] [("a", 0), ("b", 0)]).1 := by
  have h0 : ∀ i ∈ (["a", "b"] : List String),
      weightsGet [("a", 0), ("b", 0)] i = 0 := by
    intro i hi
    fin_cases hi <;> simp [weightsGet]
  exact ⟨h0, C10_zero_weights_use_global_rng.1 _ _ streamRng streamRng _ demoGRng
    [1, 2, 3] [] 5 ["a", "b"] [("a", 0), ("b", 0)] h0⟩

/-- Python truncation agrees with the floor on non-negative rationals. -/
theorem pyInt_eq_floor {q : ℚ} (h : 0 ≤ q) : pyInt q = ⌊q⌋ := by
  rw [Rat.floor_def, pyInt]
  exact Int.tdiv_eq_ediv (Rat.num_nonneg.mpr h) (by positivity)

/-- The trim scan never advances past the per-side cap: its result is at
most `max y max_trim` when started at row `y`. -/
theorem trimScan_le (bf wf : ℚ) (mt : ℤ) (rows : List (List ℕ)) :
    ∀ y : ℕ, (trimScan bf wf mt rows y : ℤ) ≤ max (y : ℤ) mt := by
  induction rows with
  | nil => intro y; simp [trimScan]
  | cons row rest ih =>
    intro y
    simp only [trimScan]
    split
    · exact le_max_left _ _
    · next hlt =>
      push_neg at hlt
      split
      · refine le_trans (ih (y + 1)) ?_
        have : ((y : ℤ) + 1) ≤ mt := hlt
        simp only [Nat.cast_add, Nat.cast_one]
        omega
      · exact le_max_left _ _

/-- C7: for every input image and every non-negative `max_ratio`,
`_trim_bands_tb` removes at most `max_ratio × height` rows from the top
and at most `max_ratio × height` rows from the bottom, regardless of how
many rows are near-solid black or near-solid white; the cropped height
loses at most those two counts. -/
theorem C7_trim_bands_caps (img : BitImg) (bf wf ratio : ℚ) (hr : 0 ≤ ratio) :
    ((topTrimCount img bf wf ratio : ℚ) ≤ ratio * (bitHeight img : ℚ)) ∧
    ((botTrimCount img bf wf ratio : ℚ) ≤ ratio * (bitHeight img : ℚ)) ∧
    (bitHeight img - topTrimCount img bf wf ratio - botTrimCount img bf wf ratio
      ≤ bitHeight (trimBands img bf wf ratio)) := by
  have hq : (0 : ℚ) ≤ (bitHeight img : ℚ) * ratio := by positivity
  have hmt : pyInt ((bitHeight img : ℚ) * ratio) = ⌊(bitHeight img : ℚ) * ratio⌋ :=
    pyInt_eq_floor hq
  have hmt0 : (0 : ℤ) ≤ pyInt ((bitHeight img : ℚ) * ratio) := by
    rw [hmt]
    exact Int.le_floor.mpr (by simpa using hq)
  have hcap : ∀ c : ℕ,
      (c : ℤ) ≤ max (0 : ℤ) (pyInt ((bitHeight img : ℚ) * ratio)) →
      (c : ℚ) ≤ ratio * (bitHeight img : ℚ) := by
    intro c hc
    rw [max_eq_right hmt0, hmt] at hc
    have h1 : ((c : ℤ) : ℚ) ≤ ((⌊(bitHeight img : ℚ) * ratio⌋ : ℤ) : ℚ) := by
      exact_mod_cast hc
    calc (c : ℚ) = ((c : ℤ) : ℚ) := by norm_cast
      _ ≤ ((⌊(bitHeight img : ℚ) * ratio⌋ : ℤ) : ℚ) := h1
      _ ≤ (bitHeight img : ℚ) * ratio := Int.floor_le _
      _ = ratio * (bitHeight img : ℚ) := mul_comm _ _
  refine ⟨hcap _ ?_, hcap _ ?_, ?_⟩
  · have h := trimScan_le bf wf (pyInt ((bitHeight img : ℚ) * ratio)) (bitToGray img) 0
    simpa [topTrimCount] using h
  · have h := trimScan_le bf wf (pyInt ((bitHeight img : ℚ) * ratio)) (bitToGray img).reverse 0
    simpa [botTrimCount] using h
  · simp only [trimBands]
    split
    · omega
    · next hgt =>
      push_neg at hgt
      have hlen : ((img.drop (topTrimCount img bf wf ratio)).take
          (bitHeight img - botTrimCount img bf wf ratio
            - topTrimCount img bf wf ratio)).length
          = min (bitHeight img - botTrimCount img bf wf ratio
              - topTrimCount img bf wf ratio)
            (img.length - topTrimCount img bf wf ratio) := by
        rw [List.length_take, List.length_drop]
      simp only [bitHeight] at *
      omega

/-- Witness for C7 at a concrete image and ratio. -/
theorem C7_trim_bands_caps_witness :
    ((0 : ℚ) ≤ 0) ∧
    (((topTrimCount [[true]] (97/100) (997/1000) 0 : ℚ)
        ≤ 0 * (bitHeight [[true]] : ℚ)) ∧
     ((botTrimCount [[true]] (97/100) (997/1000) 0 : ℚ)
        ≤ 0 * (bitHeight [[true]] : ℚ)) ∧
     (bitHeight [[true]] - topTrimCount [[true]] (97/100) (997/1000) 0
        - botTrimCount [[true]] (97/100) (997/1000) 0
        ≤ bitHeight (trimBands [[true]] (97/100) (997/1000) 0))) :=
  ⟨le_refl 0, C7_trim_bands_caps [[true]] (97/100) (997/1000) 0 (le_refl 0)⟩

/-- The packing loop emits `(u + len + 7) / 8` bytes for a row tail of
`len` pixels processed from a position `x` with `u = x % 8`. -/
theorem packRowGo_length (row : List Bool) : ∀ (x byte : ℕ),
    (packRowGo row x byte).length = (x % 8 + row.length + 7) / 8 := by
  induction row with
  | nil =>
    intro x byte
    rcases eq_or_ne (x % 8) 0 with h | h <;> simp [packRowGo, h] <;> omega
  | cons b rest ih =>
    intro x byte
    simp only [packRowGo, List.length_cons]
    split
    · next h7 =>
      simp only [List.length_cons, ih]
      omega
    · next h7 =>
      rw [ih]
      have : x % 8 < 8 := Nat.mod_lt x (by norm_num)
      omega

/-- Accumulated high bits pass through the packing loop into the first
emitted byte (no later pixel can touch a bit position above the current
one). -/
theorem packRowGo_acc (row : List Bool) : ∀ (x byte : ℕ), x % 8 ≠ 0 →
    ∀ t, 7 - x % 8 < t →
      ((packRowGo row x byte).getD 0 0).testBit t = byte.testBit t := by
  induction row with
  | nil =>
    intro x byte hx t _
    simp [packRowGo, hx]
  | cons b rest ih =>
    intro x byte hx t ht
    have hu : x % 8 < 8 := Nat.mod_lt x (by norm_num)
    have hbyte' : (if b then byte ||| 1 <<< (7 - x % 8) else byte).testBit t
        = byte.testBit t := by
      cases b
      · simp
      · simp [Nat.testBit_or, Nat.one_shiftLeft,
          Nat.testBit_two_pow_of_ne (show 7 - x % 8 ≠ t by omega)]
    simp only [packRowGo]
    rcases eq_or_ne (x % 8) 7 with h7 | h7
    · rw [if_pos h7]
      simpa using hbyte'
    · rw [if_neg h7]
      rw [ih (x + 1) _ (by omega) t (by omega)]
      exact hbyte'

/-- Bit-level correctness of the packing loop: pixel `i` of the remaining
row lands at bit `7 - (u + i) % 8` of emitted byte `(u + i) / 8`, where
`u = x % 8` is the current bit position and the accumulator has no bits
at or below position `7 - u`. -/
theorem packRowGo_testBit (row : List Bool) : ∀ (x byte : ℕ),
    (∀ t, t ≤ 7 - x % 8 → byte.testBit t = false) →
    ∀ i, i < row.length →
      ((packRowGo row x byte).getD ((x % 8 + i) / 8) 0).testBit (7 - (x % 8 + i) % 8)
        = row.getD i false := by
  induction row with
  | nil => intro x byte _ i hi; simp at hi
  | cons b rest ih =>
    intro x byte hbyte i hi
    have hu : x % 8 < 8 := Nat.mod_lt x (by norm_num)
    simp only [packRowGo]
    rcases eq_or_ne (x % 8) 7 with h7 | h7
    · rw [if_pos h7]
      cases i with
      | zero =>
        have hdiv : (x % 8 + 0) / 8 = 0 := by omega
        have hmod : 7 - (x % 8 + 0) % 8 = 0 := by omega
        rw [hdiv, hmod]
        cases b
        · simpa using hbyte 0 (by omega)
        · simp [Nat.testBit_or, Nat.one_shiftLeft, h7, Nat.testBit_two_pow_self,
            hbyte 0 (by omega)]
      | succ j =>
        have hdiv : (x % 8 + (j + 1)) / 8 = j / 8 + 1 := by omega
        have hmod : (x % 8 + (j + 1)) % 8 = j % 8 := by omega
        rw [hdiv, hmod, List.getD_cons_succ]
        have h0 := ih (x + 1) 0 (by intro t _; exact Nat.zero_testBit t) j
          (by simpa using Nat.lt_of_succ_lt_succ hi)
        have hx1 : (x + 1) % 8 = 0 := by omega
        rw [hx1] at h0
        simpa using h0
    · rw [if_neg h7]
      cases i with
      | zero =>
        have hacc := packRowGo_acc rest (x + 1)
          (if b then byte ||| 1 <<< (7 - x % 8) else byte)
          (by omega) (7 - (x % 8 + 0) % 8) (by omega)
        have hdiv : (x % 8 + 0) / 8 = 0 := by omega
        rw [hdiv, hacc]
        cases b
        · simpa using hbyte (7 - x % 8) (by omega)
        · have : (x % 8 + 0) % 8 = x % 8 := by omega
          rw [this]
          simp [Nat.testBit_or, Nat.one_shiftLeft, Nat.testBit_two_pow_self,
            hbyte (7 - x % 8) (by omega)]
      | succ j =>
        have hbyte' : ∀ t, t ≤ 7 - (x + 1) % 8 →
            (if b then byte ||| 1 <<< (7 - x % 8) else byte).testBit t = false := by
          intro t htle
          have hx1 : (x + 1) % 8 = x % 8 + 1 := by omega
          rw [hx1] at htle
          cases b
          · simpa using hbyte t (by omega)
          · simp [Nat.testBit_or, Nat.one_shiftLeft,
              Nat.testBit_two_pow_of_ne (show 7 - x % 8 ≠ t by omega),
              hbyte t (by omega)]
        have h1 := ih (x + 1) _ hbyte' j (by simpa using Nat.lt_of_succ_lt_succ hi)
        have hx1 : (x + 1) % 8 = x % 8 + 1 := by omega
        rw [hx1] at h1
        have hdiv : x % 8 + 1 + j = x % 8 + (j + 1) := by omega
        rw [hdiv] at h1
        simpa using h1

/-- Unpacking one packed row recovers the row exactly. -/
theorem unpackRow_packRow (row : List Bool) :
    unpackRow row.length (packRow row) = row := by
  apply List.ext_getElem
  · simp [unpackRow]
  · intro i h1 h2
    simp only [unpackRow, List.getElem_map, List.getElem_range]
    have h := packRowGo_testBit row 0 0 (fun t _ => Nat.zero_testBit t) i
      (by simpa [unpackRow] using h2)
    simp only [Nat.zero_mod, Nat.zero_add] at h
    rw [packRow, h, List.getD_eq_getElem row false (by simpa [unpackRow] using h2)]

/-- The packed band has exactly `(w+7)/8` bytes per row. -/
theorem packBand_length (band : BitImg) (w : ℕ)
    (hw : ∀ row ∈ band, row.length = w) :
    (packBand band).length = band.length * ((w + 7) / 8) := by
  induction band with
  | nil => simp [packBand]
  | cons r rest ih =>
    have hr : r.length = w := hw r (by simp)
    have hrest : ∀ row ∈ rest, row.length = w := fun row hrow => hw row (by simp [hrow])
    simp only [packBand, List.map_cons, List.flatten_cons, List.length_append,
      List.length_cons]
    rw [packRow, packRowGo_length, hr]
    have h2 := ih hrest
    simp only [packBand] at h2
    rw [h2]
    have : (0 % 8 + w + 7) / 8 = (w + 7) / 8 := by norm_num
    rw [this]
    ring

/-- C4: for every 1-bit source image of any width and height (including
widths that are not a multiple of 8), unpacking the MSB-first row-major
packed bytes produced by the band-packing loop of `send_image_escpos`
reconstructs exactly the source black/white pattern, and the packed
payload length equals the declared byte-width `(w+7)/8` times the band
height. -/
theorem C4_pack_roundtrip (band : BitImg) (w : ℕ)
    (hw : ∀ row ∈ band, row.length = w) :
    unpackBand w (bitHeight band) (packBand band) = band ∧
    (packBand band).length = bitHeight band * ((w + 7) / 8) := by
  refine ⟨?_, packBand_length band w hw⟩
  induction band with
  | nil => simp [unpackBand, bitHeight, packBand]
  | cons r rest ih =>
    have hr : r.length = w := hw r (by simp)
    have hrest : ∀ row ∈ rest, row.length = w := fun row hrow => hw row (by simp [hrow])
    have hlenr : (packRow r).length = (w + 7) / 8 := by
      rw [packRow, packRowGo_length, hr]
      norm_num
    have hsplit : packBand (r :: rest) = packRow r ++ packBand rest := by
      simp [packBand]
    simp only [unpackBand, bitHeight, List.length_cons, List.range_succ_eq_map,
      List.map_cons, List.map_map, List.cons.injEq]
    constructor
    · rw [hsplit, Nat.zero_mul, List.drop_zero, ← hlenr, List.take_left, ← hr,
        unpackRow_packRow]
    · have hih := ih hrest
      simp only [unpackBand, bitHeight] at hih
      refine Eq.trans ?_ hih
      apply List.map_congr_left
      intro j _
      simp only [Function.comp_apply]
      congr 1
      rw [hsplit]
      have harith : (j + 1) * ((w + 7) / 8) = (packRow r).length + j * ((w + 7) / 8) := by
        rw [hlenr]; ring
      rw [harith, ← List.drop_drop, List.drop_left]

/-- Witness for C4 on a concrete 3×2 band (width not a multiple of 8). -/
theorem C4_pack_roundtrip_witness :
    (∀ row ∈ ([[true, false, true], [false, true, false]] : BitImg), row.length = 3) ∧
    (unpackBand 3 (bitHeight [[true, false, true], [false, true, false]])
        (packBand [[true, false, true], [false, true, false]])
      = [[true, false, true], [false, true, false]] ∧
     (packBand [[true, false, true], [false, true, false]]).length
      = bitHeight [[true, false, true], [false, true, false]] * ((3 + 7) / 8)) :=
  ⟨by decide, C4_pack_roundtrip [[true, false, true], [false, true, false]] 3 (by decide)⟩

/-- Unfolding of `chunksOf` on a non-empty list with positive chunk size. -/
theorem chunksOf_ne_nil {α : Type} (n : ℕ) (hn : n ≠ 0) (l : List α) (hl : l ≠ []) :
    chunksOf n l = l.take n :: chunksOf n (l.drop n) := by
  cases l with
  | nil => exact absurd rfl hl
  | cons a t => simp [chunksOf, hn]

/-- The band-sending loop equals the band decomposition of the remaining
rows: each chunk of `rpc` rows contributes its raster header followed by
its packed bytes. -/
theorem sendBandsGo_eq (img : BitImg) (rpc : ℕ) (hrpc : 0 < rpc) :
    ∀ (fuel y : ℕ), bitHeight img - y ≤ fuel →
      sendBandsGo img rpc fuel y
        = ((chunksOf rpc (img.drop y)).map
            (fun b => bandHeader ((bitWidth img + 7) / 8) b.length ++ packBand b)).flatten := by
  intro fuel
  induction fuel with
  | zero =>
    intro y hy
    have hdrop : img.drop y = [] := List.drop_eq_nil_of_le (by
      simp only [bitHeight] at hy; omega)
    simp [sendBandsGo, hdrop, chunksOf]
  | succ fuel ih =>
    intro y hy
    simp only [sendBandsGo]
    split
    · next hle =>
      have hdrop : img.drop y = [] := List.drop_eq_nil_of_le hle
      simp [hdrop, chunksOf]
    · next hgt =>
      push_neg at hgt
      have hlen : (img.drop y).length = bitHeight img - y := by
        simp [bitHeight]
      have hne : img.drop y ≠ [] := by
        intro h
        rw [h] at hlen
        simp only [List.length_nil] at hlen
        omega
      rw [chunksOf_ne_nil rpc (by omega) _ hne]
      simp only [List.map_cons, List.flatten_cons]
      have htake : (img.drop y).take rpc = (img.drop y).take (min rpc (bitHeight img - y)) := by
        rw [List.take_eq_take]
        rw [hlen]
        omega
      have hlentake : ((img.drop y).take (min rpc (bitHeight img - y))).length
          = min rpc (bitHeight img - y) := by
        rw [List.length_take, hlen]
        omega
      rw [htake, hlentake]
      have hdropdrop : (img.drop y).drop rpc = img.drop (y + min rpc (bitHeight img - y)) := by
        rcases le_or_lt rpc (bitHeight img - y) with h | h
        · rw [min_eq_left h, List.drop_drop]
        · have h1 : (img.drop y).drop rpc = [] := List.drop_eq_nil_of_le (by
            rw [hlen]; omega)
          have h2 : img.drop (y + min rpc (bitHeight img - y)) = [] :=
            List.drop_eq_nil_of_le (by simp only [bitHeight] at *; omega)
          rw [h1, h2]
      rw [hdropdrop, ih (y + min rpc (bitHeight img - y)) (by omega)]

/-- C8: `send_image_escpos` writes to the socket, in order: init `1B 40`,
default line spacing `1B 32`, inversion-off `1D 42 00`; for each band of
up to `rows_per_chunk` rows the raster header `1D 76 30 00` followed by
`xL xH yL yH` (byte-width and band height, little-endian 16-bit) and the
packed bitmap; and after the last band the trailing feed `0A 0A 0A` and
the full cut `1D 56 00`, before the socket is closed. -/
theorem C8_escpos_stream (img : BitImg) (rpc : ℕ) (hrpc : 0 < rpc) :
    escposStream img rpc
      = [0x1B, 0x40] ++ [0x1B, 0x32] ++ [0x1D, 0x42, 0x00]
        ++ ((chunksOf rpc img).map (fun band =>
              [0x1D, 0x76, 0x30, 0x00,
               ((bitWidth img + 7) / 8) % 256, (((bitWidth img + 7) / 8) >>> 8) % 256,
               band.length % 256, (band.length >>> 8) % 256]
              ++ packBand band)).flatten
        ++ [0x0A, 0x0A, 0x0A] ++ [0x1D, 0x56, 0x00] := by
  have h := sendBandsGo_eq img rpc hrpc (bitHeight img) 0 (by omega)
  simp only [List.drop_zero] at h
  simp only [escposStream, ESC_INIT, ESC_2, GS_INVERT_OFF, GS_FULL_CUT, h, bandHeader]

/-- Witness for C8 on a concrete image and chunk size. -/
theorem C8_escpos_stream_witness :
    (0 < 2) ∧
    escposStream [[true], [false], [true]] 2
      = [0x1B, 0x40] ++ [0x1B, 0x32] ++ [0x1D, 0x42, 0x00]
        ++ ((chunksOf 2 [[true], [false], [true]]).map (fun band =>
              [0x1D, 0x76, 0x30, 0x00,
               ((bitWidth [[true], [false], [true]] + 7) / 8) % 256,
               (((bitWidth [[true], [false], [true]] + 7) / 8) >>> 8) % 256,
               band.length % 256, (band.length >>> 8) % 256]
              ++ packBand band)).flatten
        ++ [0x0A, 0x0A, 0x0A] ++ [0x1D, 0x56, 0x00] :=
  ⟨by decide, C8_escpos_stream [[true], [false], [true]] 2 (by decide)⟩

/-- C5 (refuting evaluation): `gen_maze` is not total — with `w = 512`,
`h = 900` and generator draws `18` (column divisor), `19` (row divisor,
giving `rows = max(16, 900 // 19) = 47`, an odd dimension), `46` (start
row draw) and `1` (start column draw), the start row is
`46 | 1 = 47 = rows`, so the write `visited[r0, c0] = True` raises
`IndexError` instead of clamping the start to a valid interior odd cell;
the model returns `none` at exactly that point. -/
theorem C5_gen_maze_start_raises :
    genMazeGrid streamRng 512 900 [18, 19, 46, 1] = none := rfl

/-- Membership in the cell grid as a bound check. -/
theorem mem_validCells (rows cols : ℕ) (p : Cell) :
    p ∈ validCells rows cols ↔ inBounds rows cols p := by
  cases p with
  | mk a b =>
    simp [validCells, inBounds, Finset.mem_product, Finset.mem_Ico, and_assoc]

/-- Characterisation of the neighbour list built by `nbs`. -/
theorem mem_mazeNbs (rows cols : ℕ) (visited : Finset Cell) (p : Cell)
    (q : Cell × Cell) :
    q ∈ mazeNbs rows cols visited p ↔
      ∃ d ∈ mazeDirs, q.1 = (p.1 + 2 * d.1, p.2 + 2 * d.2) ∧
        q.2 = (p.1 + d.1, p.2 + d.2) ∧ inBounds rows cols q.1 ∧ q.1 ∉ visited := by
  simp only [mazeNbs, List.mem_filterMap]
  constructor
  · rintro ⟨d, hd, hq⟩
    split at hq
    · next hcond =>
      have hq' := Option.some.inj hq
      subst hq'
      exact ⟨d, hd, rfl, rfl, hcond.1, hcond.2⟩
    · exact absurd hq (by simp)
  · rintro ⟨d, hd, h1, h2, h3, h4⟩
    refine ⟨d, hd, ?_⟩
    have hq : q = ((p.1 + 2 * d.1, p.2 + 2 * d.2), (p.1 + d.1, p.2 + d.2)) := by
      cases q with
      | mk q1 q2 =>
        simp only [Prod.mk.injEq]
        exact ⟨h1, h2⟩
    subst hq
    rw [if_pos ⟨h3, h4⟩]

/-- When `nbs` is empty, every in-bounds 2-step target is visited. -/
theorem mazeNbs_nil (rows cols : ℕ) (visited : Finset Cell) (p : Cell)
    (h : mazeNbs rows cols visited p = []) :
    ∀ q, twoStep rows cols p q → q ∈ visited := by
  intro q hq
  obtain ⟨d, hd, hq1, hq2⟩ := hq
  by_contra hnv
  have : ((q, (p.1 + d.1, p.2 + d.2)) : Cell × Cell) ∈ mazeNbs rows cols visited p := by
    rw [mem_mazeNbs]
    exact ⟨d, hd, hq1, rfl, hq1 ▸ hq2, hnv⟩
  rw [h] at this
  exact absurd this (List.not_mem_nil _)

/-- The connector wall is one step from the current cell. -/
theorem adj1_wall (p : Cell) (d : ℤ × ℤ) (hd : d ∈ mazeDirs) :
    adj1 p (p.1 + d.1, p.2 + d.2) := by
  fin_cases hd <;> simp [adj1]

/-- The carved target is one step from the connector wall. -/
theorem adj1_target (p : Cell) (d : ℤ × ℤ) (hd : d ∈ mazeDirs) :
    adj1 (p.1 + d.1, p.2 + d.2) (p.1 + 2 * d.1, p.2 + 2 * d.2) := by
  fin_cases hd <;> simp [adj1] <;> ring_nf <;> simp

/-- Connectivity inside a carved set is monotone in the set. -/
theorem connIn_mono {S T : Finset Cell} (hST : S ⊆ T) {a b : Cell}
    (h : connIn S a b) : connIn T a b := by
  induction h with
  | refl => exact Relation.ReflTransGen.refl
  | tail _ hstep ih =>
    exact ih.tail ⟨hST hstep.1, hST hstep.2.1, hstep.2.2⟩

/-- Main loop analysis of the depth-first carving: the invariant is
preserved, visited cells persist, and the stack empties within
`2·|cells| + |stack|` iterations (every iteration either marks a fresh
cell visited or pops the stack). -/
theorem mazeLoop_run {σ : Type} (R : NpRng σ) (rows cols : ℕ) (start : Cell) :
    ∀ (fuel : ℕ) (st : MazeState σ), mazeInv rows cols start st →
      mazeInv rows cols start (mazeLoop R rows cols fuel st) ∧
      st.visited ⊆ (mazeLoop R rows cols fuel st).visited ∧
      (2 * ((validCells rows cols).card - st.visited.card) + st.stack.length ≤ fuel →
        (mazeLoop R rows cols fuel st).stack = []) := by
  intro fuel
  induction fuel with
  | zero =>
    intro st hinv
    refine ⟨hinv, subset_rfl, fun h => ?_⟩
    have : st.stack.length = 0 := by omega
    exact List.length_eq_zero.mp this
  | succ fuel ih =>
    intro st hinv
    obtain ⟨v, g, stack, rs⟩ := st
    obtain ⟨hval, hstartv, hclose, hsg, hsv, hstartg, hconn⟩ := hinv
    cases stack with
    | nil =>
      exact ⟨⟨hval, hstartv, hclose, hsg, hsv, hstartg, hconn⟩, subset_rfl, fun _ => rfl⟩
    | cons p rest =>
      simp only [mazeLoop]
      cases hns1 : (R.shuffle (mazeNbs rows cols v p) rs).1 with
      | nil =>
        -- pop step
        have hperm := R.shuffle_perm (mazeNbs rows cols v p) rs
        rw [hns1] at hperm
        have hnbs : mazeNbs rows cols v p = [] :=
          List.eq_nil_of_length_eq_zero (hperm.length_eq.symm.trans rfl)
        have hinv' : mazeInv rows cols start
            ⟨v, g, rest, (R.shuffle (mazeNbs rows cols v p) rs).2⟩ := by
          refine ⟨hval, hstartv, ?_, ?_, ?_, hstartg, hconn⟩
          · intro q hq
            rcases hclose q hq with hq1 | hq1
            · rcases List.mem_cons.mp hq1 with rfl | hq2
              · exact Or.inr (mazeNbs_nil rows cols v q hnbs)
              · exact Or.inl hq2
            · exact Or.inr hq1
          · intro q hq
            exact hsg q (List.mem_cons_of_mem p hq)
          · intro q hq
            exact hsv q (List.mem_cons_of_mem p hq)
        obtain ⟨ha, hb, hc⟩ := ih ⟨v, g, rest, (R.shuffle (mazeNbs rows cols v p) rs).2⟩ hinv'
        refine ⟨ha, hb, fun hm => hc ?_⟩
        simp only [List.length_cons] at hm
        simp only
        omega
      | cons nb tail =>
        obtain ⟨n, wall⟩ := nb
        -- the carved move comes from the (shuffled) neighbour list
        have hmem : ((n, wall) : Cell × Cell) ∈ mazeNbs rows cols v p := by
          have hperm := R.shuffle_perm (mazeNbs rows cols v p) rs
          exact hperm.subset (hns1 ▸ List.mem_cons_self _ _)
        rw [mem_mazeNbs] at hmem
        obtain ⟨d, hd, hn, hwall, hnb, hnv⟩ := hmem
        simp only at hn hwall
        have hpv : p ∈ v := hsv p (List.mem_cons_self _ _)
        have hpg : p ∈ g := hsg p (List.mem_cons_self _ _)
        have hadj_pw : adj1 p wall := hwall ▸ adj1_wall p d hd
        have hadj_wn : adj1 wall n := by
          rw [hwall, hn]
          exact adj1_target p d hd
        -- invariant for the carved state
        have hinv' : mazeInv rows cols start
            ⟨insert n v, insert wall (insert n g), n :: p :: rest,
             (R.shuffle (mazeNbs rows cols v p) rs).2⟩ := by
          have hgsub : g ⊆ insert wall (insert n g) := by
            intro q hq
            exact Finset.mem_insert_of_mem (Finset.mem_insert_of_mem hq)
          have hng' : n ∈ insert wall (insert n g) :=
            Finset.mem_insert_of_mem (Finset.mem_insert_self n g)
          have hwg' : wall ∈ insert wall (insert n g) := Finset.mem_insert_self _ _
          have hpg' : p ∈ insert wall (insert n g) := hgsub hpg
          have hconnp : connIn (insert wall (insert n g)) start p :=
            connIn_mono hgsub (hconn p hpg)
          have hconnw : connIn (insert wall (insert n g)) start wall :=
            hconnp.tail ⟨hpg', hwg', hadj_pw⟩
          have hconnn : connIn (insert wall (insert n g)) start n :=
            hconnw.tail ⟨hwg', hng', hadj_wn⟩
          refine ⟨?_, Finset.mem_insert_of_mem hstartv, ?_, ?_, ?_,
            hgsub hstartg, ?_⟩
          · intro q hq
            rcases Finset.mem_insert.mp hq with rfl | hq2
            · exact hnb
            · exact hval q hq2
          · intro q hq
            rcases Finset.mem_insert.mp hq with rfl | hq2
            · exact Or.inl (List.mem_cons_self _ _)
            · rcases hclose q hq2 with hq3 | hq3
              · exact Or.inl (List.mem_cons_of_mem n hq3)
              · exact Or.inr (fun r hr => Finset.mem_insert_of_mem (hq3 r hr))
          · intro q hq
            rcases List.mem_cons.mp hq with rfl | hq2
            · exact hng'
            · exact hgsub (hsg q hq2)
          · intro q hq
            rcases List.mem_cons.mp hq with rfl | hq2
            · exact Finset.mem_insert_self _ _
            · exact Finset.mem_insert_of_mem (hsv q hq2)
          · intro q hq
            rcases Finset.mem_insert.mp hq with rfl | hq2
            · exact hconnw
            · rcases Finset.mem_insert.mp hq2 with rfl | hq3
              · exact hconnn
              · exact connIn_mono hgsub (hconn q hq3)
        obtain ⟨ha, hb, hc⟩ := ih _ hinv'
        refine ⟨ha, fun q hq => hb (Finset.mem_insert_of_mem hq), fun hm => hc ?_⟩
        have hcard : (insert n v).card = v.card + 1 := Finset.card_insert_of_not_mem hnv
        have hsub : insert n v ⊆ validCells rows cols := by
          intro q hq
          rcases Finset.mem_insert.mp hq with rfl | hq2
          · exact (mem_validCells rows cols q).mpr hnb
          · exact (mem_validCells rows cols q).mpr (hval q hq2)
        have hcardle : (insert n v).card ≤ (validCells rows cols).card :=
          Finset.card_le_card hsub
        simp only [List.length_cons] at hm
        simp only [hcard]
        simp only [List.length_cons]
        omega

/-- The coarse grid has `rows * cols` cells. -/
theorem validCells_card (rows cols : ℕ) :
    (validCells rows cols).card = rows * cols := by
  simp [validCells, Finset.card_product]

/-- C6: for every start cell on which `gen_maze` completes (the carving
runs exactly when the start index check of `genMazeGrid` passes), the
depth-first carving visits every cell reachable from the start through
in-bounds 2-step moves, and every carved cell of the resulting grid is
connected to the start cell through carved cells. -/
theorem C6_maze_dfs_connectivity {σ : Type} (R : NpRng σ) (rows cols : ℕ)
    (s0 : σ) (r0 c0 : ℤ) (h0 : inBounds rows cols (r0, c0)) :
    (∀ c, reach2 rows cols (r0, c0) c →
      c ∈ (mazeLoop R rows cols (2 * rows * cols + 1)
        ⟨{(r0, c0)}, {(r0, c0)}, [(r0, c0)], s0⟩).visited) ∧
    (∀ p ∈ (mazeLoop R rows cols (2 * rows * cols + 1)
        ⟨{(r0, c0)}, {(r0, c0)}, [(r0, c0)], s0⟩).grid,
      connIn (mazeLoop R rows cols (2 * rows * cols + 1)
        ⟨{(r0, c0)}, {(r0, c0)}, [(r0, c0)], s0⟩).grid (r0, c0) p) := by
  have hinv : mazeInv rows cols ((r0, c0) : Cell)
      ⟨{(r0, c0)}, {(r0, c0)}, [(r0, c0)], s0⟩ := by
    refine ⟨?_, Finset.mem_singleton_self _, ?_, ?_, ?_,
      Finset.mem_singleton_self _, ?_⟩
    · intro p hp
      rw [Finset.mem_singleton] at hp
      subst hp
      exact h0
    · intro p hp
      rw [Finset.mem_singleton] at hp
      subst hp
      exact Or.inl (List.mem_cons_self _ _)
    · intro p hp
      rcases List.mem_cons.mp hp with rfl | hp2
      · exact Finset.mem_singleton_self _
      · exact absurd hp2 (List.not_mem_nil p)
    · intro p hp
      rcases List.mem_cons.mp hp with rfl | hp2
      · exact Finset.mem_singleton_self _
      · exact absurd hp2 (List.not_mem_nil p)
    · intro p hp
      rw [Finset.mem_singleton] at hp
      subst hp
      exact Relation.ReflTransGen.refl
  obtain ⟨ha, _, hc⟩ := mazeLoop_run R rows cols ((r0, c0) : Cell)
    (2 * rows * cols + 1) ⟨{(r0, c0)}, {(r0, c0)}, [(r0, c0)], s0⟩ hinv
  have hempty : (mazeLoop R rows cols (2 * rows * cols + 1)
      ⟨{(r0, c0)}, {(r0, c0)}, [(r0, c0)], s0⟩).stack = [] := by
    have hmeas : 2 * ((validCells rows cols).card
        - ({((r0, c0) : Cell)} : Finset Cell).card)
        + ([((r0, c0) : Cell)] : List Cell).length ≤ 2 * rows * cols + 1 := by
      rw [validCells_card, Finset.card_singleton, List.length_singleton]
      have h2 : 2 * rows * cols = 2 * (rows * cols) := by ring
      rw [h2]
      omega
    exact hc hmeas
  obtain ⟨_, hstartv, hclose, _, _, _, hconn⟩ := ha
  constructor
  · intro c hc2
    induction hc2 with
    | refl => exact hstartv
    | tail hab hstep ih =>
      rcases hclose _ ih with hq | hq
      · rw [hempty] at hq
        exact absurd hq (List.not_mem_nil _)
      · exact hq _ hstep
  · exact hconn

/-- Witness for C6 on a concrete 1×1 grid with the identity shuffler. -/
theorem C6_maze_dfs_connectivity_witness :
    inBounds 1 1 ((0 : ℤ), (0 : ℤ)) ∧
    ((∀ c, reach2 1 1 ((0 : ℤ), (0 : ℤ)) c →
      c ∈ (mazeLoop streamRng 1 1 (2 * 1 * 1 + 1)
        ⟨{((0 : ℤ), (0 : ℤ))}, {((0 : ℤ), (0 : ℤ))}, [((0 : ℤ), (0 : ℤ))], []⟩).visited) ∧
    (∀ p ∈ (mazeLoop streamRng 1 1 (2 * 1 * 1 + 1)
        ⟨{((0 : ℤ), (0 : ℤ))}, {((0 : ℤ), (0 : ℤ))}, [((0 : ℤ), (0 : ℤ))], []⟩).grid,
      connIn (mazeLoop streamRng 1 1 (2 * 1 * 1 + 1)
        ⟨{((0 : ℤ), (0 : ℤ))}, {((0 : ℤ), (0 : ℤ))}, [((0 : ℤ), (0 : ℤ))], []⟩).grid
        ((0 : ℤ), (0 : ℤ)) p)) :=
  ⟨by decide, C6_maze_dfs_connectivity streamRng 1 1 [] 0 0 (by decide)⟩

/-- On a positive weight sum, `weighted_pick` draws from the supplied
generator and leaves the global `random` state untouched. -/
theorem weighted_pick_of_pos {σ γ : Type} (R : NpRng σ) (G : GRng γ) (rs : σ) (g : γ)
    (items : List String) (weights : List (String × ℚ))
    (h : ¬ ((items.map (fun i => weightsGet weights i)).sum ≤ 0)) :
    weighted_pick R G rs g items weights
      = (items.getD (R.choice items.length
            ((items.map (fun i => weightsGet weights i)).map
              (fun x => x / (items.map (fun i => weightsGet weights i)).sum)) rs).1 "",
         (R.choice items.length
            ((items.map (fun i => weightsGet weights i)).map
              (fun x => x / (items.map (fun i => weightsGet weights i)).sum)) rs).2, g) := by
  simp only [weighted_pick, if_neg h]

/-- The base weight map sums to 1 over the registered variants. -/
theorem base_weights_sum_pos :
    ¬ ((VARIANTS.map (fun i => weightsGet WEIGHTS_BASE i)).sum ≤ 0) := by
  simp +decide [VARIANTS, weightsGet, WEIGHTS_BASE, List.find?]
  norm_num

/-- The layering weight map is positive on every non-empty alternate
choice list (the filter drops at most one of the nine variants). -/
theorem alt_weights_sum_pos (u : String) :
    ¬ (((VARIANTS.filter (fun v => v ≠ u)).map
        (fun i => weightsGet WEIGHTS_ALT_LAYER i)).sum ≤ 0) := by
  rw [not_le]
  apply List.sum_pos
  · intro x hx
    obtain ⟨v, hv, rfl⟩ := List.mem_map.mp hx
    have hv9 : v ∈ VARIANTS := (List.mem_filter.mp hv).1
    fin_cases hv9 <;> simp +decide [weightsGet, WEIGHTS_ALT_LAYER, List.find?] <;> norm_num
  · have hmem : ∃ v, v ∈ VARIANTS.filter (fun v => v ≠ u) := by
      by_cases hu : u = "noise"
      · refine ⟨"lines", ?_⟩
        rw [List.mem_filter]
        exact ⟨by simp [VARIANTS], by simp [hu]⟩
      · refine ⟨"noise", ?_⟩
        rw [List.mem_filter]
        refine ⟨by simp [VARIANTS], ?_⟩
        simp only [decide_eq_true_eq]
        exact fun hh => hu hh.symm
    obtain ⟨v, hv⟩ := hmem
    exact List.ne_nil_of_mem (List.mem_map_of_mem _ hv)

/-- One extra-layer iteration depends on the global `random` state only
through the untouched pass-through slot. -/
theorem layerStep_global_indep {σ γ : Type} (R : NpRng σ) (G : GRng γ) (Gs : GenSet)
    (u : String) (seed bw bh : ℕ) (img : GrayImg) (s : σ) (gx gy : γ) :
    (layerStep R G Gs u seed bw bh (img, s, gx)).1
      = (layerStep R G Gs u seed bw bh (img, s, gy)).1 ∧
    (layerStep R G Gs u seed bw bh (img, s, gx)).2.1
      = (layerStep R G Gs u seed bw bh (img, s, gy)).2.1 := by
  simp only [layerStep]
  rw [weighted_pick_of_pos R G s gx _ _ (alt_weights_sum_pos u),
    weighted_pick_of_pos R G s gy _ _ (alt_weights_sum_pos u)]
  exact ⟨rfl, rfl⟩

/-- The whole extra-layer loop depends on the global state only through
the pass-through slot. -/
theorem layer_iterate_global_indep {σ γ : Type} (R : NpRng σ) (G : GRng γ)
    (Gs : GenSet) (u : String) (seed bw bh : ℕ) :
    ∀ (n : ℕ) (a b : GrayImg × σ × γ), a.1 = b.1 → a.2.1 = b.2.1 →
      ((layerStep R G Gs u seed bw bh)^[n] a).1
        = ((layerStep R G Gs u seed bw bh)^[n] b).1 ∧
      ((layerStep R G Gs u seed bw bh)^[n] a).2.1
        = ((layerStep R G Gs u seed bw bh)^[n] b).2.1 := by
  intro n
  induction n with
  | zero => intro a b h1 h2; exact ⟨h1, h2⟩
  | succ n ih =>
    intro a b h1 h2
    rw [Function.iterate_succ_apply, Function.iterate_succ_apply]
    have ha : a = (a.1, a.2.1, a.2.2) := rfl
    have hb : b = (b.1, b.2.1, b.2.2) := rfl
    have hstep := layerStep_global_indep R G Gs u seed bw bh a.1 a.2.1 a.2.2 b.2.2
    apply ih
    · rw [ha, hb, ← h1, ← h2]
      exact hstep.1
    · rw [ha, hb, ← h1, ← h2]
      exact hstep.2

/-- Congruence for the first component of a conditional pair: the
branches may differ in dead components. -/
theorem fst_ite_congr {α β : Type} (C : Prop) [Decidable C] (x y x' y' : α × β)
    (hx : x.1 = x'.1) (hy : y.1 = y'.1) :
    (if C then x else y).1 = (if C then x' else y').1 := by
  split
  · exact hx
  · exact hy

/-- The image produced by `generate_image` does not depend on the ambient
module-global `random` state: every `weighted_pick` call site has a
positive weight sum, so the global-state fallback is never taken. -/
theorem generate_image_fst_global_indep {σ γ : Type} (R : NpRng σ) (G : GRng γ)
    (Gs : GenSet) (variant : String) (seed width : ℕ) (g g' : γ) :
    (generate_image R G Gs variant seed width g).1
      = (generate_image R G Gs variant seed width g').1 := by
  simp only [generate_image]
  by_cases hvar : variant ∈ VARIANTS
  · rw [if_pos hvar, if_pos hvar]
    set u1 := R.unif (17/10) (23/10) (R.init seed) with hu1
    set bh := max MIN_BASE_HEIGHT (pyInt ((width : ℚ) * u1.1)).toNat with hbh
    set fr := random_flip_rotate R Gs (make_layer Gs variant seed width bh) u1.2 with hfr
    set rl := R.random fr.2 with hrl
    split
    · next hlt =>
      set rn := R.random rl.2 with hrn
      have key := layer_iterate_global_indep R G Gs variant seed width bh
        (1 + if rn.1 < 25/100 then 1 else 0) (fr.1, rn.2, g) (fr.1, rn.2, g') rfl rfl
      rw [key.1, key.2]
      exact fst_ite_congr _ _ _ _ _ rfl rfl
    · have e1 : ((fr.1, rl.2, g) : GrayImg × σ × γ).2.1 = rl.2 := rfl
      have e2 : ((fr.1, rl.2, g) : GrayImg × σ × γ).1 = fr.1 := rfl
      rw [e1, e2]
      exact fst_ite_congr _ _ _ _ _ rfl rfl
  · rw [if_neg hvar, if_neg hvar]
    rw [weighted_pick_of_pos R G _ g _ _ base_weights_sum_pos,
      weighted_pick_of_pos R G _ g' _ _ base_weights_sum_pos]
    set ws := VARIANTS.map (fun i => weightsGet WEIGHTS_BASE i) with hws
    set ch := R.choice VARIANTS.length (ws.map (fun x => x / ws.sum))
      (R.unif (17/10) (23/10) (R.init seed)).2 with hch
    set item := VARIANTS.getD ch.1 "" with hitem
    set bh := max MIN_BASE_HEIGHT
      (pyInt ((width : ℚ) * (R.unif (17/10) (23/10) (R.init seed)).1)).toNat with hbh
    have f1 : ((item, ch.2, g) : String × σ × γ).1 = item := rfl
    have f2 : ((item, ch.2, g) : String × σ × γ).2.1 = ch.2 := rfl
    rw [f1, f2]
    set fr := random_flip_rotate R Gs (make_layer Gs item seed width bh) ch.2 with hfr
    set rl := R.random fr.2 with hrl
    split
    · next hlt =>
      set rn := R.random rl.2 with hrn
      have key := layer_iterate_global_indep R G Gs item seed width bh
        (1 + if rn.1 < 25/100 then 1 else 0) (fr.1, rn.2, g) (fr.1, rn.2, g') rfl rfl
      rw [key.1, key.2]
      exact fst_ite_congr _ _ _ _ _ rfl rfl
    · have e1 : ((fr.1, rl.2, g) : GrayImg × σ × γ).2.1 = rl.2 := rfl
      have e2 : ((fr.1, rl.2, g) : GrayImg × σ × γ).1 = fr.1 := rfl
      rw [e1, e2]
      exact fst_ite_congr _ _ _ _ _ rfl rfl

/-- C2: for every fixed variant/style choice, seed and target width, two
independent executions of the generation-and-preparation pipeline
(`generate_image` followed by `prep_for_printer`) produce byte-identical
output images: the result is a pure function of the seeded generator
model, the layer generators and the resampler, and is independent of the
ambient global `random` state (`g` vs `g'`), the only mutable state the
two executions do not share. -/
theorem C2_pipeline_deterministic {σ γ : Type} (R : NpRng σ) (G : GRng γ)
    (Gs : GenSet) (resize : GrayImg → ℕ → GrayImg) (variant : String)
    (seed width : ℕ) (g g' : γ) :
    generatePipeline R G Gs resize variant seed width g
      = generatePipeline R G Gs resize variant seed width g' := by
  unfold generatePipeline
  rw [generate_image_fst_global_indep R G Gs variant seed width g g']

/-- A row of 8-bit pixels sums to at most `255 ·` its length. -/
theorem rowSum_le_255 (row : List ℕ) (hb : ∀ p ∈ row, p ≤ 255) :
    row.sum ≤ 255 * row.length := by
  induction row with
  | nil => simp
  | cons p rest ih =>
    have hp := hb p (by simp)
    have hr := ih (fun q hq => hb q (by simp [hq]))
    simp only [List.sum_cons, List.length_cons]
    omega

/-- An 8-bit raster sums to at most `255 ·` its pixel count. -/
theorem graySum_le_255 (img : GrayImg) (hb : ∀ row ∈ img, ∀ p ∈ row, p ≤ 255) :
    graySum img ≤ 255 * grayCount img := by
  induction img with
  | nil => simp [graySum, grayCount]
  | cons r rest ih =>
    have h1 := rowSum_le_255 r (hb r (by simp))
    have h2 := ih (fun row hrow => hb row (by simp [hrow]))
    simp only [graySum, grayCount, List.map_cons, List.sum_cons] at *
    omega

/-- The mean of a raster is non-negative. -/
theorem grayMean_nonneg (img : GrayImg) : 0 ≤ grayMean img := by
  unfold grayMean
  split
  · exact le_refl 0
  · positivity

/-- The mean of an 8-bit raster is at most 255. -/
theorem grayMean_le_255 (img : GrayImg) (hb : ∀ row ∈ img, ∀ p ∈ row, p ≤ 255) :
    grayMean img ≤ 255 := by
  unfold grayMean
  split
  · norm_num
  · next hc =>
    rw [div_le_iff (by positivity)]
    have := graySum_le_255 img hb
    calc (graySum img : ℚ) ≤ ((255 * grayCount img : ℕ) : ℚ) := by exact_mod_cast this
      _ = 255 * (grayCount img : ℚ) := by push_cast; ring

/-- Evaluating the mean from decided sum and count. -/
theorem grayMean_eq (img : GrayImg) (s c : ℕ) (hs : graySum img = s)
    (hc : grayCount img = c) (hc0 : c ≠ 0) : grayMean img = (s : ℚ) / (c : ℚ) := by
  rw [grayMean, if_neg (by rw [hc]; exact hc0), hs, hc]

/-- The contrast boost fixes a black-and-white raster: the mean lies in
`[0, 255]`, so extrapolating from the rounded mean sends 0 below 0
(clipped to 0) and 255 above 255 (clipped to 255). -/
theorem contrastEnhance_binary (f : ℚ) (img : GrayImg) (hf : 1 ≤ f)
    (hb : ∀ row ∈ img, ∀ p ∈ row, p = 0 ∨ p = 255) :
    contrastEnhance f img = img := by
  have hb' : ∀ row ∈ img, ∀ p ∈ row, p ≤ 255 := by
    intro row hrow p hp
    rcases hb row hrow p hp with h | h <;> omega
  have hd0 : (0 : ℚ) ≤ ((pyInt (grayMean img + 1/2)).toNat : ℚ) := by positivity
  have hd255 : ((pyInt (grayMean img + 1/2)).toNat : ℚ) ≤ 255 := by
    have h1 : grayMean img + 1/2 ≤ 255 + 1/2 := by
      have := grayMean_le_255 img hb'
      linarith
    have h2 : pyInt (grayMean img + 1/2) = ⌊grayMean img + 1/2⌋ := by
      apply pyInt_eq_floor
      have := grayMean_nonneg img
      linarith
    have h3 : ⌊grayMean img + 1/2⌋ ≤ 255 := by
      have hfl := Int.floor_le (grayMean img + 1/2)
      have hlt : ((⌊grayMean img + 1/2⌋ : ℤ) : ℚ) < 256 := by linarith
      have hlt2 : (⌊grayMean img + 1/2⌋ : ℤ) < 256 := by exact_mod_cast hlt
      omega
    have h4 : (0 : ℤ) ≤ pyInt (grayMean img + 1/2) := by
      rw [h2]
      apply Int.le_floor.mpr
      have := grayMean_nonneg img
      push_cast
      linarith
    rw [h2] at h4 ⊢
    have h6 : (⌊grayMean img + 1/2⌋.toNat : ℤ) ≤ 255 := by
      have h5 := Int.toNat_of_nonneg h4
      omega
    exact_mod_cast h6
  unfold contrastEnhance
  revert hd0 hd255
  generalize ((pyInt (grayMean img + 1/2)).toNat : ℚ) = D
  intro hd0 hd255
  refine Eq.trans (List.map_congr_left ?_) (List.map_id img)
  intro row hrow
  simp only [id_eq]
  refine Eq.trans (List.map_congr_left ?_) (List.map_id row)
  intro p hp
  simp only [id_eq]
  rcases hb row hrow p hp with rfl | rfl
  · have hc : D + f * (((0 : ℕ) : ℚ) - D) ≤ 0 := by push_cast; nlinarith
    rw [if_pos hc]
  · have hc1 : ¬ (D + f * (((255 : ℕ) : ℚ) - D) ≤ 0) := by push_cast; nlinarith
    have hc2 : (255 : ℚ) ≤ D + f * (((255 : ℕ) : ℚ) - D) := by push_cast; nlinarith
    rw [if_neg hc1, if_pos hc2]

/-- The gamma table sends 0 to 0 (for a nonzero exponent). -/
theorem gammaVal_zero (g : ℚ) (hg : g ≠ 0) : gammaVal g 0 = 0 := by
  unfold gammaVal
  have h0 : ((0 : ℕ) : ℝ) / 255 = 0 := by norm_num
  rw [h0, Real.zero_rpow (by exact_mod_cast hg), zero_mul]
  norm_num

/-- The gamma table sends 255 to 255. -/
theorem gammaVal_255 (g : ℚ) : gammaVal g 255 = 255 := by
  unfold gammaVal
  have h0 : ((255 : ℕ) : ℝ) / 255 = 1 := by norm_num
  rw [h0, Real.one_rpow, one_mul]
  norm_num

/-- The gamma curve fixes a black-and-white raster. -/
theorem gammaPoint_binary (g : ℚ) (img : GrayImg) (hg : g ≠ 0)
    (hb : ∀ row ∈ img, ∀ p ∈ row, p = 0 ∨ p = 255) :
    gammaPoint g img = img := by
  unfold gammaPoint
  calc img.map _ = img.map id := by
        apply List.map_congr_left
        intro row hr
        rw [id_eq]
        calc row.map (gammaVal g) = row.map id := by
              apply List.map_congr_left
              intro p hp
              rcases hb row hr p hp with rfl | rfl
              · rw [id_eq, gammaVal_zero g hg]
              · rw [id_eq, gammaVal_255 g]
          _ = row := List.map_id row
    _ = img := List.map_id img

/-- Every pixel of the C3 failing input is pure black or pure white. -/
theorem img0C3_binary : ∀ row ∈ img0C3, ∀ p ∈ row, p = 0 ∨ p = 255 := by decide

set_option maxRecDepth 8192 in
/-- The default leveling pass fixes the failing input (its histogram is
concentrated at 0 and 255, so autocontrast degenerates to the identity,
and the boost/gamma stages fix 0 and 255). -/
theorem autoLevels_img0C3_default :
    autoLevels (5/100) (5/100) (23/20) (19/20) img0C3 = img0C3 := by
  rw [autoLevels]
  rw [show (pyInt ((5 : ℚ)/100 * 100)).toNat = 5 by
    rw [show ((5 : ℚ)/100 * 100) = 5 by norm_num]; decide]
  rw [show autocontrast 5 5 img0C3 = img0C3 by decide]
  rw [contrastEnhance_binary _ _ (by norm_num) img0C3_binary]
  exact gammaPoint_binary _ _ (by norm_num) img0C3_binary

set_option maxRecDepth 8192 in
/-- The darkening re-level of the midtone loop fixes the failing input. -/
theorem autoLevels_img0C3_dark :
    autoLevels (6/100) (4/100) (11/10) (11/10) img0C3 = img0C3 := by
  rw [autoLevels]
  rw [show (pyInt ((6 : ℚ)/100 * 100)).toNat = 6 by
    rw [show ((6 : ℚ)/100 * 100) = 6 by norm_num]; decide]
  rw [show (pyInt ((4 : ℚ)/100 * 100)).toNat = 4 by
    rw [show ((4 : ℚ)/100 * 100) = 4 by norm_num]; decide]
  rw [show autocontrast 6 4 img0C3 = img0C3 by decide]
  rw [contrastEnhance_binary _ _ (by norm_num) img0C3_binary]
  exact gammaPoint_binary _ _ (by norm_num) img0C3_binary

set_option maxRecDepth 8192 in
/-- The stronger fallback re-level fixes the failing input. -/
theorem autoLevels_img0C3_strong :
    autoLevels (8/100) (8/100) (5/4) 1 img0C3 = img0C3 := by
  rw [autoLevels]
  rw [show (pyInt ((8 : ℚ)/100 * 100)).toNat = 8 by
    rw [show ((8 : ℚ)/100 * 100) = 8 by norm_num]; decide]
  rw [show autocontrast 8 8 img0C3 = img0C3 by decide]
  rw [contrastEnhance_binary _ _ (by norm_num) img0C3_binary]
  exact gammaPoint_binary _ _ (by norm_num) img0C3_binary

/-- The mean of the failing input (126 white pixels of 128). -/
theorem grayMean_img0C3 : grayMean img0C3 = 32130 / 128 :=
  grayMean_eq img0C3 32130 128 (by decide) (by decide) (by norm_num)

/-- The midtone-target step re-levels the failing input (mean ≈ 251 is
far above target 140) and leaves it unchanged. -/
theorem meanStep_img0C3 : meanStep 140 img0C3 = img0C3 := by
  unfold meanStep
  rw [if_neg (by rw [grayMean_img0C3]; norm_num),
    if_pos (by rw [grayMean_img0C3]; norm_num)]
  exact autoLevels_img0C3_dark

/-- Dithering the failing input (all pixels exact black or white, so the
error diffusion is exact thresholding). -/
theorem ditherFS_img0C3 : ditherFS img0C3 =
    [List.replicate 16 false, List.replicate 16 false, List.replicate 16 false,
     [false, false, true] ++ List.replicate 13 false,
     List.replicate 4 false ++ [true] ++ List.replicate 11 false,
     List.replicate 16 false, List.replicate 16 false, List.replicate 16 false] := by
  decide

/-- Band trimming on the dithered failing input removes the two all-white
rows at each end (cap `int(8·0.25) = 2` rows per side). -/
theorem trimBands_img0C3 :
    trimBands
      [List.replicate 16 false, List.replicate 16 false, List.replicate 16 false,
       [false, false, true] ++ List.replicate 13 false,
       List.replicate 4 false ++ [true] ++ List.replicate 11 false,
       List.replicate 16 false, List.replicate 16 false, List.replicate 16 false]
      (97/100) (997/1000) (25/100)
    = [List.replicate 16 false,
       [false, false, true] ++ List.replicate 13 false,
       List.replicate 4 false ++ [true] ++ List.replicate 11 false,
       List.replicate 16 false] := by
  have htdiv : ((2 : ℚ).num.tdiv ((2 : ℚ).den : ℤ)) = 2 := by decide
  norm_num [trimBands, topTrimCount, botTrimCount, trimScan, rowBlackFraction,
    rowMean, bitToGray, bitHeight, pyInt, htdiv, List.replicate]

/-- Side-whitespace cropping on the trimmed failing input keeps columns
2 to 4 — width 3. -/
theorem cropLR_img0C3 :
    cropWhitespaceLR
      [List.replicate 16 false,
       [false, false, true] ++ List.replicate 13 false,
       List.replicate 4 false ++ [true] ++ List.replicate 11 false,
       List.replicate 16 false]
    = cropC3 := by
  decide

/-- C3 (refuting evaluation): the width of `prep_for_printer` output is
not always a multiple of 8.  On the 16-wide black-and-white input
`img0C3` the first pass pads to width 24, but the result is over 98%
white, so the near-uniform self-check fallback re-runs leveling,
dithering, band trimming and column cropping — and returns the re-cropped
image (final width 3 after the minimum-height padding) without ever
re-padding the width to a multiple of 8. -/
theorem C3_prep_fallback_width_not_multiple_of_8 (resize : GrayImg → ℕ → GrayImg) :
    bitWidth (prep_for_printer resize img0C3 16 140 8 6) % 8 = 3 := by
  simp only [prep_for_printer]
  rw [if_pos (show grayWidth img0C3 = 16 by decide)]
  rw [autoLevels_img0C3_default, meanStep_img0C3, meanStep_img0C3, ditherFS_img0C3,
    trimBands_img0C3, cropLR_img0C3]
  rw [if_pos (show (0 : ℕ) < 8 ∨ (0 : ℕ) < 6 from Or.inl (by norm_num))]
  rw [show (List.replicate 6 (whiteRow (bitWidth cropC3 + 8 * 2))
      ++ List.map (pasteRow (bitWidth cropC3 + 8 * 2) 8) cropC3
      ++ List.replicate 6 (whiteRow (bitWidth cropC3 + 8 * 2))) = margC3 from by decide]
  rw [if_pos (show (8 - bitWidth margC3 % 8) % 8 ≠ 0 from by decide)]
  rw [show List.map (fun row =>
      row ++ whiteRow (bitWidth margC3 + (8 - bitWidth margC3 % 8) % 8 - row.length)) margC3
      = padC3 from by decide]
  rw [if_pos (show grayMean (bitToGray padC3) / 255 > 98/100
      ∨ grayMean (bitToGray padC3) / 255 < 2/100 from Or.inl (by
    rw [grayMean_eq (bitToGray padC3) 97410 384 (by decide) (by decide) (by norm_num)]
    norm_num))]
  rw [autoLevels_img0C3_strong, ditherFS_img0C3, trimBands_img0C3, cropLR_img0C3]
  rw [if_pos (show bitHeight cropC3 < MIN_FINAL_ROWS by decide)]
  decide

/-- Pipeline stage: every pixel of `canvA` is pure black or white. -/
theorem canvA_binary : ∀ row ∈ canvA, ∀ p ∈ row, p = 0 ∨ p = 255 := by decide

/-- Pipeline stage: every pixel of `canvB` is pure black or white. -/
theorem canvB_binary : ∀ row ∈ canvB, ∀ p ∈ row, p = 0 ∨ p = 255 := by decide

set_option maxRecDepth 16384 in
/-- The default leveling pass fixes `canvA`: its 22 black pixels are at
most the 5% histogram cut of 448 pixels, so autocontrast degenerates to
the identity, and the boost and gamma stages fix 0 and 255. -/
theorem autoLevels_canvA_default :
    autoLevels (5/100) (5/100) (23/20) (19/20) canvA = canvA := by
  rw [autoLevels]
  rw [show (pyInt ((5 : ℚ)/100 * 100)).toNat = 5 by
    rw [show ((5 : ℚ)/100 * 100) = 5 by norm_num]; decide]
  rw [show autocontrast 5 5 canvA = canvA by decide]
  rw [contrastEnhance_binary _ _ (by norm_num) canvA_binary]
  exact gammaPoint_binary _ _ (by norm_num) canvA_binary

set_option maxRecDepth 16384 in
/-- The darkening re-level of the midtone loop fixes `canvA`. -/
theorem autoLevels_canvA_dark :
    autoLevels (6/100) (4/100) (11/10) (11/10) canvA = canvA := by
  rw [autoLevels]
  rw [show (pyInt ((6 : ℚ)/100 * 100)).toNat = 6 by
    rw [show ((6 : ℚ)/100 * 100) = 6 by norm_num]; decide]
  rw [show (pyInt ((4 : ℚ)/100 * 100)).toNat = 4 by
    rw [show ((4 : ℚ)/100 * 100) = 4 by norm_num]; decide]
  rw [show autocontrast 6 4 canvA = canvA by decide]
  rw [contrastEnhance_binary _ _ (by norm_num) canvA_binary]
  exact gammaPoint_binary _ _ (by norm_num) canvA_binary

set_option maxRecDepth 16384 in
/-- The default leveling pass fixes `canvB` (20 black pixels, cut 22). -/
theorem autoLevels_canvB_default :
    autoLevels (5/100) (5/100) (23/20) (19/20) canvB = canvB := by
  rw [autoLevels]
  rw [show (pyInt ((5 : ℚ)/100 * 100)).toNat = 5 by
    rw [show ((5 : ℚ)/100 * 100) = 5 by norm_num]; decide]
  rw [show autocontrast 5 5 canvB = canvB by decide]
  rw [contrastEnhance_binary _ _ (by norm_num) canvB_binary]
  exact gammaPoint_binary _ _ (by norm_num) canvB_binary

set_option maxRecDepth 16384 in
/-- The darkening re-level of the midtone loop fixes `canvB`. -/
theorem autoLevels_canvB_dark :
    autoLevels (6/100) (4/100) (11/10) (11/10) canvB = canvB := by
  rw [autoLevels]
  rw [show (pyInt ((6 : ℚ)/100 * 100)).toNat = 6 by
    rw [show ((6 : ℚ)/100 * 100) = 6 by norm_num]; decide]
  rw [show (pyInt ((4 : ℚ)/100 * 100)).toNat = 4 by
    rw [show ((4 : ℚ)/100 * 100) = 4 by norm_num]; decide]
  rw [show autocontrast 6 4 canvB = canvB by decide]
  rw [contrastEnhance_binary _ _ (by norm_num) canvB_binary]
  exact gammaPoint_binary _ _ (by norm_num) canvB_binary

/-- The mean of `canvA` (426 white pixels of 448). -/
theorem grayMean_canvA : grayMean canvA = 108630 / 448 :=
  grayMean_eq canvA 108630 448 (by decide) (by decide) (by norm_num)

/-- The mean of `canvB` (428 white pixels of 448). -/
theorem grayMean_canvB : grayMean canvB = 109140 / 448 :=
  grayMean_eq canvB 109140 448 (by decide) (by decide) (by norm_num)

/-- The midtone-target step re-levels `canvA` (mean far above 140) and
leaves it unchanged. -/
theorem meanStep_canvA : meanStep 140 canvA = canvA := by
  unfold meanStep
  rw [if_neg (by rw [grayMean_canvA]; norm_num),
    if_pos (by rw [grayMean_canvA]; norm_num)]
  exact autoLevels_canvA_dark

/-- The midtone-target step re-levels `canvB` and leaves it unchanged. -/
theorem meanStep_canvB : meanStep 140 canvB = canvB := by
  unfold meanStep
  rw [if_neg (by rw [grayMean_canvB]; norm_num),
    if_pos (by rw [grayMean_canvB]; norm_num)]
  exact autoLevels_canvB_dark

set_option maxRecDepth 16384 in
/-- Dithering `canvA` is exact thresholding (binary input). -/
theorem ditherFS_canvA : ditherFS canvA = bitA := by decide

set_option maxRecDepth 16384 in
/-- Dithering `canvB` is exact thresholding. -/
theorem ditherFS_canvB : ditherFS canvB = bitB := by decide

/-- Band trimming leaves `bitA` unchanged: the glyph row at the top and
the inked art row at the bottom are neither near-solid black nor
near-solid white. -/
theorem trimBands_bitA :
    trimBands bitA (97/100) (997/1000) (25/100) = bitA := by
  have htdiv7 : ((7 : ℚ).num.tdiv ((7 : ℚ).den : ℤ)) = 7 := by decide
  norm_num [trimBands, topTrimCount, botTrimCount, trimScan, rowBlackFraction,
    rowMean, bitToGray, bitHeight, pyInt, htdiv7, bitA, List.replicate]

/-- Band trimming leaves `bitB` unchanged. -/
theorem trimBands_bitB :
    trimBands bitB (97/100) (997/1000) (25/100) = bitB := by
  have htdiv7 : ((7 : ℚ).num.tdiv ((7 : ℚ).den : ℤ)) = 7 := by decide
  norm_num [trimBands, topTrimCount, botTrimCount, trimScan, rowBlackFraction,
    rowMean, bitToGray, bitHeight, pyInt, htdiv7, bitB, List.replicate]

set_option maxRecDepth 16384 in
/-- Side-whitespace cropping on `bitA` keeps columns 0 to 6 (the `"a"`
glyph inks column 0). -/
theorem cropLR_bitA : cropWhitespaceLR bitA = cropA := by decide

set_option maxRecDepth 16384 in
/-- Side-whitespace cropping on `bitB` keeps columns 2 to 6 (the `"@"`
glyph inks only column 6, so the art sets the left edge). -/
theorem cropLR_bitB : cropWhitespaceLR bitB = cropB := by decide

/-- Full preparation of the `"a"` canvas: no trim, crop to width 7,
margins and padding to width 24, no near-uniform fallback (22 of 960
pixels black), bottom-padded to the minimum height. -/
theorem prep_canvA (resize : GrayImg → ℕ → GrayImg) :
    prep_for_printer resize canvA 16 140 8 6
      = padA ++ List.replicate (MIN_FINAL_ROWS - bitHeight padA)
          (whiteRow (bitWidth padA)) := by
  simp only [prep_for_printer]
  rw [if_pos (show grayWidth canvA = 16 by decide)]
  rw [autoLevels_canvA_default, meanStep_canvA, meanStep_canvA, ditherFS_canvA,
    trimBands_bitA, cropLR_bitA]
  rw [if_pos (show (0 : ℕ) < 8 ∨ (0 : ℕ) < 6 from Or.inl (by norm_num))]
  rw [show (List.replicate 6 (whiteRow (bitWidth cropA + 8 * 2))
      ++ List.map (pasteRow (bitWidth cropA + 8 * 2) 8) cropA
      ++ List.replicate 6 (whiteRow (bitWidth cropA + 8 * 2))) = margA from by decide]
  rw [if_pos (show (8 - bitWidth margA % 8) % 8 ≠ 0 from by decide)]
  rw [show List.map (fun row =>
      row ++ whiteRow (bitWidth margA + (8 - bitWidth margA % 8) % 8 - row.length)) margA
      = padA from by decide]
  rw [if_neg (show ¬(grayMean (bitToGray padA) / 255 > 98/100
      ∨ grayMean (bitToGray padA) / 255 < 2/100) from by
    rw [grayMean_eq (bitToGray padA) 239190 960 (by decide) (by decide) (by norm_num)]
    norm_num)]
  rw [if_pos (show bitHeight padA < MIN_FINAL_ROWS by decide)]

/-- Full preparation of the `"@"` canvas: crop to width 5, margins and
padding to width 24, no fallback (20 of 960 pixels black), bottom-padded
to the minimum height. -/
theorem prep_canvB (resize : GrayImg → ℕ → GrayImg) :
    prep_for_printer resize canvB 16 140 8 6
      = padB ++ List.replicate (MIN_FINAL_ROWS - bitHeight padB)
          (whiteRow (bitWidth padB)) := by
  simp only [prep_for_printer]
  rw [if_pos (show grayWidth canvB = 16 by decide)]
  rw [autoLevels_canvB_default, meanStep_canvB, meanStep_canvB, ditherFS_canvB,
    trimBands_bitB, cropLR_bitB]
  rw [if_pos (show (0 : ℕ) < 8 ∨ (0 : ℕ) < 6 from Or.inl (by norm_num))]
  rw [show (List.replicate 6 (whiteRow (bitWidth cropB + 8 * 2))
      ++ List.map (pasteRow (bitWidth cropB + 8 * 2) 8) cropB
      ++ List.replicate 6 (whiteRow (bitWidth cropB + 8 * 2))) = margB from by decide]
  rw [if_pos (show (8 - bitWidth margB % 8) % 8 ≠ 0 from by decide)]
  rw [show List.map (fun row =>
      row ++ whiteRow (bitWidth margB + (8 - bitWidth margB % 8) % 8 - row.length)) margB
      = padB from by decide]
  rw [if_neg (show ¬(grayMean (bitToGray padB) / 255 > 98/100
      ∨ grayMean (bitToGray padB) / 255 < 2/100) from by
    rw [grayMean_eq (bitToGray padB) 239700 960 (by decide) (by decide) (by norm_num)]
    norm_num)]
  rw [if_pos (show bitHeight padB < MIN_FINAL_ROWS by decide)]

/-- Counterexample to the original claim: two composed canvases that
differ only in the name (`"a"` versus `"@"`, same trait, archetype, art
and width) prepare to images whose art-derived rows differ.  The `"a"`
glyph inks canvas column 0 while the `"@"` glyph does not, so
`_crop_whitespace_lr` keeps columns 0-6 for one and 2-6 for the other,
and the same art pixels land on different columns of the prepared output
(margin rows 0-21 hold the header; rows from 22 derive from the art).
Both canvases already have the target width, so the resampler is never
consulted. -/
theorem C1_prep_art_pixels_change :
    grayWidth (composeCanvas 16 "a" "" "" artC1) = 16
    ∧ grayWidth (composeCanvas 16 "@" "" "" artC1) = 16
    ∧ artRegion 16 "a" "" "" (composeCanvas 16 "a" "" "" artC1) = artC1
    ∧ artRegion 16 "@" "" "" (composeCanvas 16 "@" "" "" artC1) = artC1
    ∧ ("a" : String) ≠ "@"
    ∧ (prep_for_printer idResize (composeCanvas 16 "a" "" "" artC1) 16 140 8 6).take 22
        ≠ (prep_for_printer idResize (composeCanvas 16 "@" "" "" artC1) 16 140 8 6).take 22
    ∧ (prep_for_printer idResize (composeCanvas 16 "a" "" "" artC1) 16 140 8 6).drop 22
        ≠ (prep_for_printer idResize (composeCanvas 16 "@" "" "" artC1) 16 140 8 6).drop 22 := by
  refine ⟨by decide, by decide, by decide, by decide, by decide, ?_, ?_⟩
  · rw [show composeCanvas 16 "a" "" "" artC1 = canvA from rfl,
      show composeCanvas 16 "@" "" "" artC1 = canvB from rfl,
      prep_canvA idResize, prep_canvB idResize]
    decide
  · rw [show composeCanvas 16 "a" "" "" artC1 = canvA from rfl,
      show composeCanvas 16 "@" "" "" artC1 = canvB from rfl,
      prep_canvA idResize, prep_canvB idResize]
    decide

/-- An ink pixel determines the glyph bit. -/
theorem bitPix_inj : ∀ b b_ : Bool, bitPix b = bitPix b_ → b = b_ := by decide

/-- Glyph cells determine the character (for code points below 250, the
eight cell columns carry every bit of the code point). -/
theorem glyphCell_inj (c c_ : Char) (hc : c.toNat < 250) (hc_ : c_.toNat < 250)
    (h : glyphCell c = glyphCell c_) : c = c_ := by
  rw [glyphCell, glyphCell] at h
  simp only [List.cons.injEq, and_true] at h
  obtain ⟨h0, h1, h2, h3, h4, h5, h6, h7⟩ := h
  have ht : c.toNat = c_.toNat := by
    apply Nat.eq_of_testBit_eq
    intro i
    rcases Nat.lt_or_ge i 8 with h8 | h8
    · interval_cases i
      · exact bitPix_inj _ _ h0
      · exact bitPix_inj _ _ h1
      · exact bitPix_inj _ _ h2
      · exact bitPix_inj _ _ h3
      · exact bitPix_inj _ _ h4
      · exact bitPix_inj _ _ h5
      · exact bitPix_inj _ _ h6
      · exact bitPix_inj _ _ h7
    · have hp : (256 : ℕ) ≤ 2 ^ i :=
        le_trans (by norm_num) (Nat.pow_le_pow_right (by norm_num) h8)
      rw [Nat.testBit_eq_false_of_lt (by omega),
        Nat.testBit_eq_false_of_lt (by omega)]
  exact Char.eq_of_val_eq (UInt32.toNat.inj ht)

set_option maxRecDepth 8192 in
/-- A printable character (code point in `[32, 250)`) has ink: its glyph
cell contains a black pixel. -/
theorem glyphCell_mem_zero (c : Char) (h32 : 32 ≤ c.toNat) (h250 : c.toNat < 250) :
    (0 : ℕ) ∈ glyphCell c := by
  have hb : c.toNat.testBit 5 = true ∨ c.toNat.testBit 6 = true
      ∨ c.toNat.testBit 7 = true := by
    have hall : ∀ x : ℕ, x < 250 → 32 ≤ x →
        (x.testBit 5 = true ∨ x.testBit 6 = true ∨ x.testBit 7 = true) := by decide
    exact hall _ h250 h32
  rw [glyphCell]
  rcases hb with hb | hb | hb <;> simp [bitPix, hb]

/-- The header glyph row determines the text: glyph cells of printable
characters are pairwise distinct, non-blank and of fixed width 8, so two
texts render to the same padded row only if they are equal. -/
theorem glyphLine_inj : ∀ (l l_ : List Char) (k k_ : ℕ),
    (∀ c ∈ l, 32 ≤ c.toNat ∧ c.toNat < 250) →
    (∀ c ∈ l_, 32 ≤ c.toNat ∧ c.toNat < 250) →
    (l.map glyphCell).flatten ++ List.replicate k 255
      = (l_.map glyphCell).flatten ++ List.replicate k_ 255 →
    l = l_ := by
  intro l
  induction l with
  | nil =>
    intro l_ k k_ _ hc_ h
    cases l_ with
    | nil => rfl
    | cons c_ rest_ =>
      exfalso
      have hmem : (0 : ℕ) ∈ glyphCell c_ :=
        glyphCell_mem_zero c_ (hc_ c_ (by simp)).1 (hc_ c_ (by simp)).2
      have hmem2 : (0 : ℕ)
          ∈ ((c_ :: rest_).map glyphCell).flatten ++ List.replicate k_ 255 := by
        simp only [List.map_cons, List.flatten_cons, List.append_assoc]
        exact List.mem_append_left _ hmem
      rw [← h] at hmem2
      simp only [List.map_nil, List.flatten_nil, List.nil_append] at hmem2
      have := List.eq_of_mem_replicate hmem2
      omega
  | cons c rest ih =>
    intro l_ k k_ hc hc_ h
    cases l_ with
    | nil =>
      exfalso
      have hmem : (0 : ℕ) ∈ glyphCell c :=
        glyphCell_mem_zero c (hc c (by simp)).1 (hc c (by simp)).2
      have hmem2 : (0 : ℕ)
          ∈ ((c :: rest).map glyphCell).flatten ++ List.replicate k 255 := by
        simp only [List.map_cons, List.flatten_cons, List.append_assoc]
        exact List.mem_append_left _ hmem
      rw [h] at hmem2
      simp only [List.map_nil, List.flatten_nil, List.nil_append] at hmem2
      have := List.eq_of_mem_replicate hmem2
      omega
    | cons c_ rest_ =>
      simp only [List.map_cons, List.flatten_cons, List.append_assoc] at h
      have hlen : (glyphCell c).length = (glyphCell c_).length := by
        simp [glyphCell]
      obtain ⟨hcell, htail⟩ := List.append_inj h hlen
      have hc0 := hc c (by simp)
      have hc0_ := hc_ c_ (by simp)
      rw [glyphCell_inj c c_ hc0.2 hc0_.2 hcell]
      rw [ih rest_ k k_ (fun x hx => hc x (by simp [hx]))
        (fun x hx => hc_ x (by simp [hx])) htail]

/-- C1 (corrected, spec-modelled CLI): the developed print script accepts
`--name`, `--trait`, `--archetype` and `--style`; an invalid or omitted
`--style` falls back to a random registered style; name, trait and
archetype are rendered as up to three header lines above the art
(omitting empty fields); and changing only the name changes the header
region of the composed canvas while leaving its art region unchanged.
The original claim asserted the header/art separation of the final
prepared image; that part is refuted by `C1_prep_art_pixels_change`,
since `prep_for_printer` levels, trims and crops globally. -/
theorem C1_cli_style_header {γ : Type} (G : GRng γ) (g : γ)
    (n n_ t a s : String) (registry : List String) (art : GrayImg) (w : ℕ)
    (hreg : registry ≠ []) (hbad : s ∉ registry)
    (ht : t ≠ "") (ha : a ≠ "")
    (hnn : n ≠ n_) (hn : n ≠ "") (hn_ : n_ ≠ "")
    (hlen : 8 * n.length ≤ w) (hlen_ : 8 * n_.length ≤ w)
    (hchar : ∀ c ∈ n.data, 32 ≤ c.toNat ∧ c.toNat < 250)
    (hchar_ : ∀ c ∈ n_.data, 32 ≤ c.toNat ∧ c.toNat < 250) :
    (parseArgs ["--name", n, "--trait", t, "--archetype", a, "--style", s]
      = ⟨some n, some t, some a, some s⟩) ∧
    ((chooseStyle G registry (some s) g).1 ∈ registry) ∧
    ((chooseStyle G registry none g).1 ∈ registry) ∧
    (renderHeader w n t a = renderLine w n ++ (renderLine w t ++ renderLine w a)) ∧
    (renderHeader w n "" a = renderLine w n ++ renderLine w a) ∧
    (artRegion w n t a (composeCanvas w n t a art) = art) ∧
    (artRegion w n_ t a (composeCanvas w n_ t a art) = art) ∧
    (headerRegion w n t a (composeCanvas w n t a art)
      ≠ headerRegion w n_ t a (composeCanvas w n_ t a art)) := by
  have hlenpos : 0 < registry.length := List.length_pos.mpr hreg
  have hget : ∀ gg : γ, registry.getD (G.choiceIdx registry.length gg).1 "" ∈ registry := by
    intro gg
    have hk := G.choiceIdx_lt registry.length gg hlenpos
    rw [List.getD_eq_getElem _ _ hk]
    exact List.getElem_mem hk
  refine ⟨?_, ?_, ?_, ?_, ?_, ?_, ?_, ?_⟩
  · simp [parseArgs]
  · rw [chooseStyle, if_neg hbad]
    exact hget g
  · rw [chooseStyle]
    exact hget g
  · simp [renderHeader, hn, ht, ha]
  · simp [renderHeader, hn, ha]
  · rw [artRegion, composeCanvas, List.drop_left]
  · rw [artRegion, composeCanvas, List.drop_left]
  · rw [headerRegion, composeCanvas, List.take_left,
      headerRegion, composeCanvas, List.take_left]
    intro heq
    apply hnn
    have h1 : renderHeader w n t a = renderLine w n ++ (renderLine w t ++ renderLine w a) := by
      simp [renderHeader, hn, ht, ha]
    have h2 : renderHeader w n_ t a = renderLine w n_ ++ (renderLine w t ++ renderLine w a) := by
      simp [renderHeader, hn_, ht, ha]
    rw [h1, h2, ← List.append_assoc, ← List.append_assoc] at heq
    have h3 : renderLine w n = renderLine w n_ := by
      have h4 := List.append_cancel_right
        (List.append_cancel_right heq)
      exact h4
    rw [renderLine, renderLine, List.cons.injEq] at h3
    have h5 := glyphLine_inj n.data n_.data (w - 8 * n.length) (w - 8 * n_.length)
      hchar hchar_ h3.1
    cases n; cases n_
    simp only [String.data] at h5
    rw [h5]

/-- Witness for C1 at concrete flags, names, registry and art. -/
theorem C1_cli_style_header_witness :
    ((["minimal"] : List String) ≠ [] ∧ ("zzz" : String) ∉ (["minimal"] : List String) ∧
     ("T" : String) ≠ "" ∧ ("R" : String) ≠ "" ∧
     ("A" : String) ≠ ("B" : String) ∧ ("A" : String) ≠ "" ∧ ("B" : String) ≠ "" ∧
     8 * ("A" : String).length ≤ 8 ∧ 8 * ("B" : String).length ≤ 8 ∧
     (∀ c ∈ ("A" : String).data, 32 ≤ c.toNat ∧ c.toNat < 250) ∧
     (∀ c ∈ ("B" : String).data, 32 ≤ c.toNat ∧ c.toNat < 250)) ∧
    ((parseArgs ["--name", "A", "--trait", "T", "--archetype", "R", "--style", "zzz"]
      = ⟨some "A", some "T", some "R", some "zzz"⟩) ∧
    ((chooseStyle demoGRng ["minimal"] (some "zzz") 0).1 ∈ (["minimal"] : List String)) ∧
    ((chooseStyle demoGRng ["minimal"] none 0).1 ∈ (["minimal"] : List String)) ∧
    (renderHeader 8 "A" "T" "R" = renderLine 8 "A" ++ (renderLine 8 "T" ++ renderLine 8 "R")) ∧
    (renderHeader 8 "A" "" "R" = renderLine 8 "A" ++ renderLine 8 "R") ∧
    (artRegion 8 "A" "T" "R" (composeCanvas 8 "A" "T" "R" [[0]]) = [[0]]) ∧
    (artRegion 8 "B" "T" "R" (composeCanvas 8 "B" "T" "R" [[0]]) = [[0]]) ∧
    (headerRegion 8 "A" "T" "R" (composeCanvas 8 "A" "T" "R" [[0]])
      ≠ headerRegion 8 "B" "T" "R" (composeCanvas 8 "B" "T" "R" [[0]]))) :=
  ⟨⟨by decide, by decide, by decide, by decide, by decide, by decide, by decide,
    by decide, by decide, by decide, by decide⟩,
   C1_cli_style_header demoGRng 0 "A" "B" "T" "R" "zzz" ["minimal"] [[0]] 8
     (by decide) (by decide) (by decide) (by decide) (by decide) (by decide)
     (by decide) (by decide) (by decide) (by decide) (by decide)⟩
